import Mathlib

/-!
Verification of the scheduled-delivery engine of src/bot.py (a Telegram
chatbot with an admin-controlled message scheduler).

The embedding translates the Python source into pure Lean functions:

* naive datetimes (all in the fixed Asia/Singapore timezone, so timezone
  localization is the identity) are modelled as a record of numeric fields,
  ordered lexicographically exactly as Python orders datetime values;
* Python datetime.strptime with the three format strings
  "%Y-%m-%d %H:%M", "%Y-%m-%d %I%p", "%Y-%m-%d %I:%M%p" is modelled
  character by character following CPython's _strptime regular expressions
  (field regexes: Y = four digits; m, I = 1[0-2]|0[1-9]|[1-9];
  d = 3[01]|[12]d|0[1-9]|[1-9]; H = 2[0-3]|[01]d|d; M = [0-5]d|d;
  p = AM|PM case-insensitively; a space in the format matches a nonempty
  whitespace run; the whole input must be consumed; the resulting fields
  must form a valid calendar date, otherwise ValueError).  Since in every
  format each numeric field is followed by a non-digit, regex backtracking
  coincides with taking the maximal digit run and checking it against the
  alternation, which is how the model reads the input.  Character classes
  are modelled over ASCII (the inputs of interest); Python's auto-acked
  message texts, which are randomized, are modelled only by the fact that
  an ack is sent;
* the stateful handlers become functions from (store, session state, input)
  to a result record carrying the reply, the new session state, and the
  store write, with a save field of none meaning that save_schedules was
  never called.
-/

set_option maxRecDepth 4000

namespace HiroBot

/-- Fixed admin chat id from the source (ADMIN_CHAT_ID = 713470736). -/
def ADMIN_CHAT_ID : Int := 713470736

/-- Fixed recipient chat id from the source (TARGET_CHAT_ID = 512984392). -/
def TARGET_CHAT_ID : Int := 512984392

/-- A naive datetime in the fixed Singapore timezone, as produced by
datetime.strptime and stored (isoformat) in the schedule bin. -/
structure DateTime where
  year : Nat
  month : Nat
  day : Nat
  hour : Nat
  minute : Nat
deriving DecidableEq, Repr

/-- Python compares (timezone-equal) datetimes lexicographically by
(year, month, day, hour, minute); this is the order used by
send_dt <= now checks in the source. -/
def DateTime.leb (a b : DateTime) : Bool :=
  if a.year ≠ b.year then decide (a.year < b.year)
  else if a.month ≠ b.month then decide (a.month < b.month)
  else if a.day ≠ b.day then decide (a.day < b.day)
  else if a.hour ≠ b.hour then decide (a.hour < b.hour)
  else decide (a.minute ≤ b.minute)

/-- One record of the schedules bin: {"time": ..., "chat_id": ..., "message": ...}
as appended by cmd_schedule.  The time field is stored as an isoformat string
in the bin; per the data-model invariant it always decodes back to the
datetime it was written from, so the model keeps it as a DateTime. -/
structure ScheduleEntry where
  time : DateTime
  chat_id : Int
  message : String
deriving DecidableEq, Repr

/-! ### Character-level helpers for the strptime model -/

/-- Value of a digit run, as computed by int() on the matched group. -/
def digitsToNat (ds : List Char) : Nat :=
  ds.foldl (fun n c => 10 * n + (c.toNat - 48)) 0

/-- A numeric strptime field of one or two digits whose value lies in
[lo, hi].  This single test is equivalent to each of CPython's field
alternations m, I (lo=1, hi=12), d (1, 31), H (0, 23), M (0, 59):
every 1- or 2-digit numeral whose value is in range is matched by the
corresponding alternation, and conversely. -/
def fieldOk (lo hi : Nat) (ds : List Char) : Bool :=
  (decide (ds.length = 1) || decide (ds.length = 2)) &&
    decide (lo ≤ digitsToNat ds) && decide (digitsToNat ds ≤ hi)

/-- The matched value of a numeric field, or none if the run is not a
valid match for the field. -/
def fieldVal (lo hi : Nat) (ds : List Char) : Option Nat :=
  if fieldOk lo hi ds then some (digitsToNat ds) else none

/-- Gregorian leap year rule, as used by Python's datetime validation. -/
def isLeap (y : Nat) : Bool :=
  (decide (y % 4 = 0) && decide (y % 100 ≠ 0)) || decide (y % 400 = 0)

/-- Days in a month, as used by Python's datetime validation. -/
def daysInMonth (y m : Nat) : Nat :=
  if m = 2 then (if isLeap y then 29 else 28)
  else if m = 4 ∨ m = 6 ∨ m = 9 ∨ m = 11 then 30
  else 31

/-- datetime(year, month, day, ...) raises ValueError unless
MINYEAR <= year and the day fits the month (month range is already
enforced by the %m field match). -/
def validDate (y m d : Nat) : Bool :=
  decide (1 ≤ y) && decide (1 ≤ d) && decide (d ≤ daysInMonth y m)

/-- Parse the shared "%Y-%m-%d " prefix of all three formats: a four-digit
year, a dash, a month field, a dash, a day field, then a nonempty
whitespace run; returns the numeric fields and the unconsumed rest. -/
def parseDate (cs : List Char) : Option (Nat × Nat × Nat × List Char) :=
  let ys := cs.takeWhile Char.isDigit
  let r1 := cs.dropWhile Char.isDigit
  if ys.length = 4 then
    match r1 with
    | '-' :: r2 =>
      let ms := r2.takeWhile Char.isDigit
      let r3 := r2.dropWhile Char.isDigit
      match fieldVal 1 12 ms, r3 with
      | some m, '-' :: r4 =>
        let ds2 := r4.takeWhile Char.isDigit
        let r5 := r4.dropWhile Char.isDigit
        match fieldVal 1 31 ds2 with
        | some d =>
          let w := r5.takeWhile Char.isWhitespace
          let r6 := r5.dropWhile Char.isWhitespace
          if w.isEmpty then none else some (digitsToNat ys, m, d, r6)
        | none => none
      | _, _ => none
    | _ => none
  else none

/-- The %p field: exactly the rest of the input, two characters forming
am/pm case-insensitively (C locale); false = AM, true = PM. -/
def meridiem (cs : List Char) : Option Bool :=
  match cs with
  | [a, b] =>
    if (a == 'a' || a == 'A') && (b == 'm' || b == 'M') then some false
    else if (a == 'p' || a == 'P') && (b == 'm' || b == 'M') then some true
    else none
  | _ => none

/-- strptime's 12-hour to 24-hour conversion for %I combined with %p. -/
def hour12to24 (h : Nat) (pm : Bool) : Nat :=
  if pm then (if h = 12 then 12 else h + 12) else (if h = 12 then 0 else h)

/-- The "%H:%M" tail: hour field, colon, minute field, end of input. -/
def parseTime24 (cs : List Char) : Option (Nat × Nat) :=
  let hs := cs.takeWhile Char.isDigit
  let r1 := cs.dropWhile Char.isDigit
  match fieldVal 0 23 hs, r1 with
  | some h, ':' :: r2 =>
    let ms := r2.takeWhile Char.isDigit
    let r3 := r2.dropWhile Char.isDigit
    match fieldVal 0 59 ms with
    | some mi => if r3.isEmpty then some (h, mi) else none
    | none => none
  | _, _ => none

/-- The "%I%p" tail: 12-hour field immediately followed by the meridiem. -/
def parseTime12 (cs : List Char) : Option (Nat × Nat) :=
  let hs := cs.takeWhile Char.isDigit
  let r1 := cs.dropWhile Char.isDigit
  match fieldVal 1 12 hs, meridiem r1 with
  | some h, some pm => some (hour12to24 h pm, 0)
  | _, _ => none

/-- The "%I:%M%p" tail: 12-hour field, colon, minute field, meridiem. -/
def parseTime12Min (cs : List Char) : Option (Nat × Nat) :=
  let hs := cs.takeWhile Char.isDigit
  let r1 := cs.dropWhile Char.isDigit
  match fieldVal 1 12 hs, r1 with
  | some h, ':' :: r2 =>
    let ms := r2.takeWhile Char.isDigit
    let r3 := r2.dropWhile Char.isDigit
    match fieldVal 0 59 ms, meridiem r3 with
    | some mi, some pm => some (hour12to24 h pm, mi)
    | _, _ => none
  | _, _ => none

/-- One datetime.strptime call: the shared date prefix, the format's time
tail, then the validity check performed by constructing the datetime. -/
def strptimeWith (timeTail : List Char → Option (Nat × Nat)) (cs : List Char) :
    Option DateTime :=
  match parseDate cs with
  | some (y, m, d, rest) =>
    match timeTail rest with
    | some (h, mi) => if validDate y m d then some ⟨y, m, d, h, mi⟩ else none
    | none => none
  | none => none

/-- The loop of parse_datetime_safely over the three formats, in source
order; none models the final raise ValueError (invalid format). -/
def parseAll (cs : List Char) : Option DateTime :=
  match strptimeWith parseTime24 cs with
  | some dt => some dt
  | none =>
    match strptimeWith parseTime12 cs with
    | some dt => some dt
    | none => strptimeWith parseTime12Min cs

/-- parse_datetime_safely(date_str, time_str) tries the three formats on
the concatenation date_str ++ " " ++ time_str; none models the raised
ValueError. -/
def parse_datetime_safely (date_str time_str : String) : Option DateTime :=
  parseAll (date_str ++ " " ++ time_str).data

example : parse_datetime_safely "2031-01-01" "10:30" = some ⟨2031, 1, 1, 10, 30⟩ := by decide
example : parse_datetime_safely "2031-01-01" "8am" = some ⟨2031, 1, 1, 8, 0⟩ := by decide
example : parse_datetime_safely "2031-01-01" "8:30PM" = some ⟨2031, 1, 1, 20, 30⟩ := by decide
example : parse_datetime_safely "2031-01-01" "12am" = some ⟨2031, 1, 1, 0, 0⟩ := by decide
example : parse_datetime_safely "2031-01-01" "9999" = none := by decide
example : parse_datetime_safely "2031-02-29" "10:00" = none := by decide
example : parse_datetime_safely "2032-02-29" "10:00" = some ⟨2032, 2, 29, 10, 0⟩ := by decide
example : parse_datetime_safely "2031-1-1" "9:5" = some ⟨2031, 1, 1, 9, 5⟩ := by decide

/-! ### The delivery poller (send_scheduled_messages) -/

/-- Observable effects of one poller tick: the scheduled-message sends to
the recipient (chat id, text), the follow-up auto-ack sends (randomized
text, recorded as the chat id they go to), the confirmation sends to the
admin (chat id, scheduled time, message), and the list written back by the
final save_schedules call. -/
structure TickResult where
  delivered : List (Int × String)
  acks : List Int
  confirms : List (Int × DateTime × String)
  remaining : List ScheduleEntry
deriving DecidableEq, Repr

/-- One tick of send_scheduled_messages: "now" is captured once, then the
loop walks the loaded list in order; an entry with time <= now is sent to
TARGET_CHAT_ID, auto-acked, and confirmed to ADMIN_CHAT_ID (each send in
its own try block, so a failure never re-queues the entry); an entry with
time > now is appended to remaining; finally remaining is saved as the
whole new store. -/
def send_scheduled_messages (now : DateTime) : List ScheduleEntry → TickResult
  | [] => ⟨[], [], [], []⟩
  | sched :: rest =>
    let r := send_scheduled_messages now rest
    if DateTime.leb sched.time now then
      ⟨(TARGET_CHAT_ID, sched.message) :: r.delivered,
       TARGET_CHAT_ID :: r.acks,
       (ADMIN_CHAT_ID, sched.time, sched.message) :: r.confirms,
       r.remaining⟩
    else
      ⟨r.delivered, r.acks, r.confirms, sched :: r.remaining⟩

/-! ### Inline keyboard rendering (schedule_list_markup) -/

/-- Python's s[:38] + ellipsis when len(s) > 40, else s unchanged
(the preview expression in schedule_list_markup). -/
def preview_of (message : String) : String :=
  if message.length > 40 then message.take 38 ++ "…" else message

/-- Zero-padded two-digit rendering used by strftime's %d, %I, %M. -/
def pad2 (n : Nat) : String := if n < 10 then "0" ++ toString n else toString n

/-- strftime %b month abbreviation. -/
def monthAbbrev (m : Nat) : String :=
  ["Jan", "Feb", "Mar", "Apr", "May", "Jun",
   "Jul", "Aug", "Sep", "Oct", "Nov", "Dec"].getD (m - 1) ""

/-- strftime %I: hour on the 12-hour clock, zero-padded. -/
def hour12disp (h : Nat) : Nat := if h % 12 = 0 then 12 else h % 12

/-- strftime %p for rendering. -/
def ampm (h : Nat) : String := if h < 12 then "AM" else "PM"

/-- strftime("%d %b, %I:%M %p") as used for the list-row label. -/
def strftime_list (dt : DateTime) : String :=
  pad2 dt.day ++ " " ++ monthAbbrev dt.month ++ ", " ++
    pad2 (hour12disp dt.hour) ++ ":" ++ pad2 dt.minute ++ " " ++ ampm dt.hour

/-- One inline keyboard button: its visible label and its callback data. -/
structure ListButton where
  label : String
  callback_data : String
deriving DecidableEq, Repr

/-- schedule_list_markup: one row per (index, entry) pair showing index,
localized time, and the truncated preview, with callback "view:i", plus
the trailing refresh row. -/
def schedule_list_markup (page_items : List (Nat × ScheduleEntry)) : List ListButton :=
  (page_items.map fun p =>
    { label := toString p.1 ++ ". " ++ strftime_list p.2.time ++ " — " ++
        preview_of p.2.message,
      callback_data := "view:" ++ toString p.1 }) ++
    [{ label := "Refresh ♻️", callback_data := "list:refresh" }]

/-! ### Python string helpers used by the handlers -/

/-- Python str.split() with no separator: split on whitespace runs,
dropping empty pieces. -/
def pySplitAux : List Char → List Char → List String
  | [], acc => if acc.isEmpty then [] else [String.mk acc.reverse]
  | c :: cs, acc =>
    if c.isWhitespace then
      if acc.isEmpty then pySplitAux cs []
      else String.mk acc.reverse :: pySplitAux cs []
    else pySplitAux cs (c :: acc)

/-- Python str.split() with no separator. -/
def pySplit (s : String) : List String := pySplitAux s.data []

/-- Python str.strip(): drop whitespace from both ends. -/
def pyStrip (s : String) : String :=
  String.mk (((s.data.dropWhile Char.isWhitespace).reverse.dropWhile
    Char.isWhitespace).reverse)

/-- Python str.startswith. -/
def pyStartswith (pre s : String) : Bool := pre.data.isPrefixOf s.data

/-- Python int(str) on callback arguments: optional surrounding whitespace,
optional sign, then a nonempty digit string (numeric-separator underscores
and non-ASCII digits are not modelled); none models the raised ValueError. -/
def pyInt (s : String) : Option Int :=
  match (pyStrip s).data with
  | '-' :: ds =>
    if ds.isEmpty || !ds.all Char.isDigit then none else some (-(digitsToNat ds : Int))
  | '+' :: ds =>
    if ds.isEmpty || !ds.all Char.isDigit then none else some ((digitsToNat ds : Int))
  | ds =>
    if ds.isEmpty || !ds.all Char.isDigit then none else some ((digitsToNat ds : Int))

/-- Python data.split(":")[1], total since it is only consulted after a
startswith check that guarantees a colon is present. -/
def argOfAux : List Char → List Char → List (List Char)
  | [], acc => [acc.reverse]
  | c :: cs, acc => if c == ':' then acc.reverse :: argOfAux cs [] else argOfAux cs (c :: acc)

/-- Python data.split(":")[1]. -/
def argOf (data : String) : String := String.mk ((argOfAux data.data []).getD 1 [])

example : argOf "view:17" = "17" := by decide
example : argOf "delete:3:4" = "3" := by decide
example : pyInt "17" = some 17 := by decide
example : pyInt "-2" = some (-2) := by decide
example : pyInt "abc" = none := by decide
example : pySplit "  2031-01-01   9999 " = ["2031-01-01", "9999"] := by decide

/-! ### The edit session state machine (ADMIN_STATE and handle_admin_edit_reply) -/

/-- The "mode" field of ADMIN_STATE. -/
inductive EditMode where
  | edit_time
  | edit_msg
deriving DecidableEq, Repr

/-- One open edit session: ADMIN_STATE[ADMIN_CHAT_ID]; the index is an Int
because it originates from int() on callback data. -/
structure AdminState where
  mode : EditMode
  index : Int
deriving DecidableEq, Repr

/-- The replies handle_admin_edit_reply can send. -/
inductive EditReply where
  | staleIndex
  | formatHint
  | pastTime
  | emptyMsg
  | couldNotApply
  | timeUpdated (dt : DateTime)
  | msgUpdated
deriving DecidableEq, Repr

/-- Observable outcome of handle_admin_edit_reply: its Boolean return value
(handled), the session slot after the call, the store write if
save_schedules was called, and the reply sent if any. -/
structure EditResult where
  handled : Bool
  sessionAfter : Option AdminState
  saved : Option (List ScheduleEntry)
  reply : Option EditReply
deriving DecidableEq, Repr

/-- Default entry used only to spell list indexing at positions already
known to be in bounds. -/
def dfltEntry : ScheduleEntry := ⟨⟨0, 0, 0, 0, 0⟩, 0, ""⟩

/-- handle_admin_edit_reply: consumes the next admin text message while an
edit session is open.  Mirrors the source: non-admin or empty session
returns unhandled; an out-of-range session index reports staleness, clears
the session, writes nothing; in edit_time mode, a token count other than 2
keeps the session open with a format hint, an unparseable time raises
ValueError which the except block turns into clearing the session with an
error reply (no write), a past time keeps the session open, and a valid
future time rewrites entry idx and clears the session; in edit_msg mode an
empty stripped text keeps the session open, otherwise the message is
rewritten and the session cleared. -/
def handle_admin_edit_reply (isAdm : Bool) (st : Option AdminState)
    (items : List ScheduleEntry) (text : String) (now : DateTime) : EditResult :=
  if !isAdm then ⟨false, st, none, none⟩
  else
    match st with
    | none => ⟨false, none, none, none⟩
    | some s =>
      if s.index < 0 ∨ (items.length : Int) ≤ s.index then
        ⟨true, none, none, some .staleIndex⟩
      else
        match s.mode with
        | .edit_time =>
          let parts := pySplit (pyStrip text)
          if parts.length ≠ 2 then ⟨true, some s, none, some .formatHint⟩
          else
            match parse_datetime_safely (parts.getD 0 "") (parts.getD 1 "") with
            | none => ⟨true, none, none, some .couldNotApply⟩
            | some dt =>
              if DateTime.leb dt now then ⟨true, some s, none, some .pastTime⟩
              else
                let idx := s.index.toNat
                let items2 := items.set idx { items.getD idx dfltEntry with time := dt }
                ⟨true, none, some items2, some (.timeUpdated dt)⟩
        | .edit_msg =>
          let new_msg := pyStrip text
          if new_msg = "" then ⟨true, some s, none, some .emptyMsg⟩
          else
            let idx := s.index.toNat
            let items2 := items.set idx { items.getD idx dfltEntry with message := new_msg }
            ⟨true, none, some items2, some .msgUpdated⟩

/-! ### The create-schedule command (cmd_schedule) -/

/-- The replies cmd_schedule can send. -/
inductive ScheduleReply where
  | usage
  | errorReply
  | pastTime
  | ok (dt : DateTime) (msg : String)
deriving DecidableEq, Repr

/-- Observable outcome of cmd_schedule: the reply and the store write if
save_schedules was called. -/
structure CmdResult where
  reply : ScheduleReply
  saved : Option (List ScheduleEntry)
deriving DecidableEq, Repr

/-- cmd_schedule (admin-only command body): with fewer than 3 arguments
reply with usage; parse args[0], args[1]; a parse ValueError is caught by
the except block and reported (no load happens); a time not strictly in
the future is reported (no load happens); otherwise the store is loaded,
one entry is appended and saved, and the normalized time plus message is
reported back. -/
def cmd_schedule (args : List String) (now : DateTime)
    (store : List ScheduleEntry) : CmdResult :=
  if args.length < 3 then ⟨.usage, none⟩
  else
    let date_str := args.getD 0 ""
    let time_str := args.getD 1 ""
    let message := String.intercalate " " (args.drop 2)
    match parse_datetime_safely date_str time_str with
    | none => ⟨.errorReply, none⟩
    | some send_dt =>
      if DateTime.leb send_dt now then ⟨.pastTime, none⟩
      else ⟨.ok send_dt message,
            some (store ++ [⟨send_dt, TARGET_CHAT_ID, message⟩])⟩

/-! ### The inline-button router (on_callback) -/

/-- The replies on_callback can send via edit_message_text. -/
inductive CbReply where
  | noMessages
  | listShown
  | staleItem
  | viewShown (idx : Int)
  | editTimePrompt (idx : Int)
  | editMsgPrompt (idx : Int)
  | deleted
deriving DecidableEq, Repr

/-- Observable outcome of on_callback: whether q.answer() ran, the reply
sent if any, the session slot after the call, the store write if any, and
whether an uncaught exception escaped the handler (int() on a malformed
index; the framework logs it and nothing else happens). -/
structure CbResult where
  answered : Bool
  reply : Option CbReply
  sessionAfter : Option AdminState
  saved : Option (List ScheduleEntry)
  crashed : Bool
deriving DecidableEq, Repr

/-- on_callback: a callback from any chat other than the admin's returns
immediately; otherwise the query is answered, the store is loaded, and the
action string is dispatched on its prefix ("list", "view:", "edit_time:",
"edit_msg:", "delete:"); any other string falls through the ifs and the
handler returns without replying or mutating anything. -/
def on_callback (chat : Int) (data : String) (items : List ScheduleEntry)
    (st : Option AdminState) : CbResult :=
  if chat = ADMIN_CHAT_ID then
    if pyStartswith "list" data then
      if items.isEmpty then ⟨true, some .noMessages, st, none, false⟩
      else ⟨true, some .listShown, st, none, false⟩
    else if pyStartswith "view:" data then
      match pyInt (argOf data) with
      | none => ⟨true, none, st, none, true⟩
      | some idx =>
        if idx < 0 ∨ (items.length : Int) ≤ idx then ⟨true, some .staleItem, st, none, false⟩
        else ⟨true, some (.viewShown idx), st, none, false⟩
    else if pyStartswith "edit_time:" data then
      match pyInt (argOf data) with
      | none => ⟨true, none, st, none, true⟩
      | some idx =>
        if idx < 0 ∨ (items.length : Int) ≤ idx then ⟨true, some .staleItem, st, none, false⟩
        else ⟨true, some (.editTimePrompt idx), some ⟨.edit_time, idx⟩, none, false⟩
    else if pyStartswith "edit_msg:" data then
      match pyInt (argOf data) with
      | none => ⟨true, none, st, none, true⟩
      | some idx =>
        if idx < 0 ∨ (items.length : Int) ≤ idx then ⟨true, some .staleItem, st, none, false⟩
        else ⟨true, some (.editMsgPrompt idx), some ⟨.edit_msg, idx⟩, none, false⟩
    else if pyStartswith "delete:" data then
      match pyInt (argOf data) with
      | none => ⟨true, none, st, none, true⟩
      | some idx =>
        if idx < 0 ∨ (items.length : Int) ≤ idx then ⟨true, some .staleItem, st, none, false⟩
        else ⟨true, some .deleted, st, some (items.eraseIdx idx.toNat), false⟩
    else ⟨true, none, st, none, false⟩
  else ⟨false, none, st, none, false⟩

/-! ### Conversation memory (update_memory) -/

/-- One record of the memory bin. -/
structure MemoryRecord where
  sender : String
  message : String
deriving DecidableEq, Repr

/-- update_memory: load, append {"sender": ..., "message": ...}, keep only
the last 200 records when the list exceeds 200 (Python memory[-200:]),
save. -/
def update_memory (memory : List MemoryRecord) (sender message : String) :
    List MemoryRecord :=
  let m := memory ++ [⟨sender, message⟩]
  if 200 < m.length then m.drop (m.length - 200) else m

/-! ### The claimed grammar, read strictly (C4)

Modelled from the spec: the three grammars of the claim, with the doubled
letters read as exact digit counts — YYYY-MM-DD is 4-2-2 digits, HH:MM is
two digits each (00-23 / 00-59), H is one or two digits (1-12), MM after H
is two digits, the separator is a single space, and the meridiem is
case-insensitive. -/

/-- Numeric value of one digit character. -/
def dv (c : Char) : Nat := c.toNat - 48

/-- Case-insensitive AM/PM test on two characters. -/
def isMer (a b : Char) : Bool :=
  ((a == 'a' || a == 'A') && (b == 'm' || b == 'M')) ||
    ((a == 'p' || a == 'P') && (b == 'm' || b == 'M'))

/-- Strict reading of the date part plus its two-digit bounds. -/
def specDateOk (y1 y2 y3 y4 m1 m2 d1 d2 : Char) : Bool :=
  [y1, y2, y3, y4, m1, m2, d1, d2].all Char.isDigit &&
    decide (1 ≤ 10 * dv m1 + dv m2) && decide (10 * dv m1 + dv m2 ≤ 12) &&
    decide (1 ≤ 10 * dv d1 + dv d2) && decide (10 * dv d1 + dv d2 ≤ 31)

/-- Strict reading of the 24-hour grammar "YYYY-MM-DD HH:MM". -/
def specMatches24 (cs : List Char) : Bool :=
  match cs with
  | [y1, y2, y3, y4, '-', m1, m2, '-', d1, d2, ' ', h1, h2, ':', n1, n2] =>
    specDateOk y1 y2 y3 y4 m1 m2 d1 d2 && [h1, h2, n1, n2].all Char.isDigit &&
      decide (10 * dv h1 + dv h2 ≤ 23) && decide (10 * dv n1 + dv n2 ≤ 59)
  | _ => false

/-- Strict reading of the 12-hour grammar "YYYY-MM-DD H(AM|PM)" with a one-
or two-digit hour of value 1-12. -/
def specMatches12 (cs : List Char) : Bool :=
  match cs with
  | [y1, y2, y3, y4, '-', m1, m2, '-', d1, d2, ' ', h1, p1, p2] =>
    specDateOk y1 y2 y3 y4 m1 m2 d1 d2 && h1.isDigit &&
      decide (1 ≤ dv h1) && isMer p1 p2
  | [y1, y2, y3, y4, '-', m1, m2, '-', d1, d2, ' ', h1, h2, p1, p2] =>
    specDateOk y1 y2 y3 y4 m1 m2 d1 d2 && h1.isDigit && h2.isDigit &&
      decide (1 ≤ 10 * dv h1 + dv h2) && decide (10 * dv h1 + dv h2 ≤ 12) &&
      isMer p1 p2
  | _ => false

/-- Strict reading of the 12-hour grammar "YYYY-MM-DD H:MM(AM|PM)". -/
def specMatches12m (cs : List Char) : Bool :=
  match cs with
  | [y1, y2, y3, y4, '-', m1, m2, '-', d1, d2, ' ', h1, ':', n1, n2, p1, p2] =>
    specDateOk y1 y2 y3 y4 m1 m2 d1 d2 && [h1, n1, n2].all Char.isDigit &&
      decide (1 ≤ dv h1) && decide (10 * dv n1 + dv n2 ≤ 59) && isMer p1 p2
  | [y1, y2, y3, y4, '-', m1, m2, '-', d1, d2, ' ', h1, h2, ':', n1, n2, p1, p2] =>
    specDateOk y1 y2 y3 y4 m1 m2 d1 d2 && [h1, h2, n1, n2].all Char.isDigit &&
      decide (1 ≤ 10 * dv h1 + dv h2) && decide (10 * dv h1 + dv h2 ≤ 12) &&
      decide (10 * dv n1 + dv n2 ≤ 59) && isMer p1 p2
  | _ => false

/-- The claim's grammar set, read strictly. -/
def specGrammar (s : String) : Bool :=
  specMatches24 s.data || specMatches12 s.data || specMatches12m s.data

/-! ### The accepted language, characterized independently (C4 amended)

Modelled from the spec (amended): the same three grammars generalized to
what the strptime patterns accept — month, day, hour, and minute may be
one or two digits (month 1-12, day 1-31 and valid for the month, 24-hour
hour 0-23, 12-hour hour 1-12, minute 0-59), the year is exactly four
digits and at least 0001, the date-time separator is any nonempty
whitespace run, and the meridiem is case-insensitive.  The recognizer
works by splitting the whole string into maximal runs of one character
class (digit / whitespace / letter / other) and matching the run list
against the three shapes, independently of the sequential parser. -/

/-- Character class index used by the run splitter. -/
def classOf (c : Char) : Nat :=
  if c.isDigit then 0 else if c.isWhitespace then 1 else if c.isAlpha then 2 else 3

/-- A maximal run of characters of one class. -/
inductive Tok where
  | digits (run : List Char)
  | white (run : List Char)
  | alpha (run : List Char)
  | other (run : List Char)
deriving DecidableEq, Repr

/-- The class a token stands for. -/
def Tok.kind : Tok → Nat
  | .digits _ => 0
  | .white _ => 1
  | .alpha _ => 2
  | .other _ => 3

/-- The characters of a token. -/
def Tok.run : Tok → List Char
  | .digits r => r
  | .white r => r
  | .alpha r => r
  | .other r => r

/-- Build a token of a given class. -/
def mkTok (k : Nat) (run : List Char) : Tok :=
  if k = 0 then .digits run else if k = 1 then .white run
  else if k = 2 then .alpha run else .other run

/-- Prepend a character to a token's run. -/
def Tok.push (c : Char) : Tok → Tok
  | .digits r => .digits (c :: r)
  | .white r => .white (c :: r)
  | .alpha r => .alpha (c :: r)
  | .other r => .other (c :: r)

/-- One step of the run splitter: extend the first token if the class
matches, otherwise start a new one. -/
def tokStep (c : Char) : List Tok → List Tok
  | t :: ts => if t.kind = classOf c then t.push c :: ts else mkTok (classOf c) [c] :: t :: ts
  | [] => [mkTok (classOf c) [c]]

/-- Split a string into maximal runs of one character class. -/
def tokenize (cs : List Char) : List Tok := cs.foldr tokStep []

/-- The three generalized grammar shapes over the run list, sharing the
field-range tests with the parser model: 24-hour
"digits - digits - digits ws digits : digits", 12-hour-no-minutes
"digits - digits - digits ws digits letters", 12-hour-with-minutes
"digits - digits - digits ws digits : digits letters". -/
def tokShape : List Tok → Option DateTime
  | [Tok.digits ys, Tok.other s1, Tok.digits ms, Tok.other s2, Tok.digits ds2,
     Tok.white _, Tok.digits hs, Tok.other s3, Tok.digits mins] =>
    if s1 = ['-'] ∧ s2 = ['-'] ∧ s3 = [':'] ∧
        (decide (ys.length = 4) && fieldOk 1 12 ms && fieldOk 1 31 ds2 &&
         validDate (digitsToNat ys) (digitsToNat ms) (digitsToNat ds2) &&
         fieldOk 0 23 hs && fieldOk 0 59 mins) = true then
      some ⟨digitsToNat ys, digitsToNat ms, digitsToNat ds2,
            digitsToNat hs, digitsToNat mins⟩
    else none
  | [Tok.digits ys, Tok.other s1, Tok.digits ms, Tok.other s2, Tok.digits ds2,
     Tok.white _, Tok.digits hs, Tok.alpha p] =>
    match meridiem p with
    | some pm =>
      if s1 = ['-'] ∧ s2 = ['-'] ∧
          (decide (ys.length = 4) && fieldOk 1 12 ms && fieldOk 1 31 ds2 &&
           validDate (digitsToNat ys) (digitsToNat ms) (digitsToNat ds2) &&
           fieldOk 1 12 hs) = true then
        some ⟨digitsToNat ys, digitsToNat ms, digitsToNat ds2,
              hour12to24 (digitsToNat hs) pm, 0⟩
      else none
    | none => none
  | [Tok.digits ys, Tok.other s1, Tok.digits ms, Tok.other s2, Tok.digits ds2,
     Tok.white _, Tok.digits hs, Tok.other s3, Tok.digits mins, Tok.alpha p] =>
    match meridiem p with
    | some pm =>
      if s1 = ['-'] ∧ s2 = ['-'] ∧ s3 = [':'] ∧
          (decide (ys.length = 4) && fieldOk 1 12 ms && fieldOk 1 31 ds2 &&
           validDate (digitsToNat ys) (digitsToNat ms) (digitsToNat ds2) &&
           fieldOk 1 12 hs && fieldOk 0 59 mins) = true then
        some ⟨digitsToNat ys, digitsToNat ms, digitsToNat ds2,
              hour12to24 (digitsToNat hs) pm, digitsToNat mins⟩
      else none
    | none => none
  | _ => none

/-- The generalized grammars applied to a whole string: split into maximal
class runs, then match one of the three shapes. -/
def tokParse (cs : List Char) : Option DateTime := tokShape (tokenize cs)

/-- The generalized grammar set of the amended claim, as a whole-string
recognizer returning the decoded timestamp. -/
def amendedMatches (s : String) : Option DateTime := tokParse s.data

example : amendedMatches "2031-01-01 10:30" = some ⟨2031, 1, 1, 10, 30⟩ := by decide
example : amendedMatches "2031-1-1 9:5" = some ⟨2031, 1, 1, 9, 5⟩ := by decide
example : amendedMatches "2031-01-01  8:30pM" = some ⟨2031, 1, 1, 20, 30⟩ := by decide
example : amendedMatches "2031-01-01 9999" = none := by decide
example : amendedMatches "2031-02-29 10:00" = none := by decide

/-! ### Character-class facts -/

/-- A digit is not one of the four whitespace characters. -/
theorem digit_not_ws {c : Char} (h : c.isDigit = true) : c.isWhitespace = false := by
  rcases hw : c.isWhitespace with _ | _
  · rfl
  · exfalso
    simp only [Char.isWhitespace, Bool.or_eq_true, decide_eq_true_eq] at hw
    rcases hw with ((h1 | h1) | h1) | h1 <;> subst h1 <;> revert h <;> decide

/-- A digit is not a letter. -/
theorem digit_not_alpha {c : Char} (h : c.isDigit = true) : c.isAlpha = false := by
  simp only [Char.isDigit, Bool.and_eq_true, decide_eq_true_eq, ge_iff_le,
    UInt32.le_def, BitVec.le_def] at h
  obtain ⟨h1, h2⟩ := h
  norm_num at h1 h2
  simp only [Char.isAlpha, Char.isUpper, Char.isLower, Bool.or_eq_false_iff,
    Bool.and_eq_false_iff, decide_eq_false_iff_not, ge_iff_le, UInt32.le_def, BitVec.le_def]
  norm_num
  omega

/-- A whitespace character is not a letter. -/
theorem ws_not_alpha {c : Char} (h : c.isWhitespace = true) : c.isAlpha = false := by
  simp only [Char.isWhitespace, Bool.or_eq_true, decide_eq_true_eq] at h
  rcases h with ((h1 | h1) | h1) | h1 <;> subst h1 <;> decide

/-- classOf is 0 exactly on digits. -/
theorem classOf_eq_zero {c : Char} : classOf c = 0 ↔ c.isDigit = true := by
  unfold classOf
  rcases h : c.isDigit with _ | _ <;> simp [h]
  rcases h2 : c.isWhitespace with _ | _ <;> simp [h2]
  rcases h3 : c.isAlpha with _ | _ <;> simp [h3]

/-- A class-1 character is whitespace. -/
theorem classOf_eq_one_ws {c : Char} (h : classOf c = 1) : c.isWhitespace = true := by
  unfold classOf at h
  split_ifs at h with h1 h2 h3 <;> first | exact h2 | omega

/-- A whitespace character has class 1. -/
theorem ws_classOf {c : Char} (h : c.isWhitespace = true) : classOf c = 1 := by
  have hd : c.isDigit = false := by
    rcases hd : c.isDigit with _ | _
    · rfl
    · rw [digit_not_ws hd] at h; exact absurd h (by simp)
  unfold classOf
  rw [hd, h]
  rfl

/-- A class-2 character is a letter. -/
theorem classOf_eq_two_alpha {c : Char} (h : classOf c = 2) : c.isAlpha = true := by
  unfold classOf at h
  split_ifs at h with h1 h2 h3 <;> first | exact h3 | omega

/-- A letter has class 2. -/
theorem alpha_classOf {c : Char} (h : c.isAlpha = true) : classOf c = 2 := by
  have hd : c.isDigit = false := by
    rcases hd : c.isDigit with _ | _
    · rfl
    · rw [digit_not_alpha hd] at h; exact absurd h (by simp)
  have hw : c.isWhitespace = false := by
    rcases hw : c.isWhitespace with _ | _
    · rfl
    · rw [ws_not_alpha hw] at h; exact absurd h (by simp)
  unfold classOf
  rw [hd, hw, h]
  rfl

/-- A digit has class 0. -/
theorem digit_classOf {c : Char} (h : c.isDigit = true) : classOf c = 0 := by
  unfold classOf
  rw [h]
  rfl

/-- Every class index is at most 3. -/
theorem classOf_le {c : Char} : classOf c ≤ 3 := by
  unfold classOf
  rcases c.isDigit with _ | _ <;> rcases c.isWhitespace with _ | _ <;>
    rcases c.isAlpha with _ | _ <;> simp

/-! ### Tokenizer lemmas -/

/-- Characters of all tokens, concatenated. -/
def flattenToks (ts : List Tok) : List Char := ts.foldr (fun t acc => t.run ++ acc) []

theorem mkTok_kind {k : Nat} (hk : k ≤ 3) (r : List Char) : (mkTok k r).kind = k := by
  interval_cases k <;> rfl

theorem mkTok_run (k : Nat) (r : List Char) : (mkTok k r).run = r := by
  unfold mkTok
  split <;> try rfl
  split <;> try rfl
  split <;> rfl

theorem Tok.push_eq (c : Char) (t : Tok) : t.push c = mkTok t.kind (c :: t.run) := by
  cases t <;> rfl

theorem mkTok_eta (t : Tok) : mkTok t.kind t.run = t := by
  cases t <;> rfl

theorem tokenize_cons (c : Char) (cs : List Char) :
    tokenize (c :: cs) = tokStep c (tokenize cs) := rfl

theorem tokStep_nil (c : Char) : tokStep c [] = [mkTok (classOf c) [c]] := rfl

theorem tokStep_cons (c : Char) (t : Tok) (ts : List Tok) :
    tokStep c (t :: ts)
      = if t.kind = classOf c then t.push c :: ts
        else mkTok (classOf c) [c] :: t :: ts := rfl

/-- The first token of a nonempty string starts with its first character
and carries its class. -/
theorem tokenize_head (c : Char) (cs : List Char) :
    ∃ run ts, tokenize (c :: cs) = mkTok (classOf c) (c :: run) :: ts := by
  rw [tokenize_cons]
  cases h : tokenize cs with
  | nil => exact ⟨[], [], rfl⟩
  | cons t ts =>
    rw [tokStep_cons]
    by_cases hk : t.kind = classOf c
    · rw [if_pos hk]
      exact ⟨t.run, ts, by rw [Tok.push_eq, hk]⟩
    · rw [if_neg hk]
      exact ⟨[], t :: ts, rfl⟩

/-- Splitting off a nonempty uniform-class run whose boundary changes
class produces exactly one token for the run. -/
theorem tokenize_run_append (k : Nat) (rs rest : List Char) (hk : k ≤ 3)
    (hne : rs ≠ []) (hall : ∀ c ∈ rs, classOf c = k)
    (hb : ∀ x xs, rest = x :: xs → classOf x ≠ k) :
    tokenize (rs ++ rest) = mkTok k rs :: tokenize rest := by
  induction rs with
  | nil => exact absurd rfl hne
  | cons c rs' ih =>
    have hc : classOf c = k := hall c (by simp)
    cases rs' with
    | nil =>
      simp only [List.singleton_append]
      cases hr : rest with
      | nil =>
        rw [tokenize_cons]
        show tokStep c (tokenize []) = _
        rw [show tokenize [] = [] from rfl, tokStep_nil, hc]
      | cons x xs =>
        rw [tokenize_cons]
        obtain ⟨run, ts, hx⟩ := tokenize_head x xs
        subst hr
        rw [hx, tokStep_cons, mkTok_kind classOf_le,
          if_neg (fun hcc => hb x xs rfl (hcc.trans hc))]
        rw [hc, ← hx]
    | cons c' rs'' =>
      have step : tokenize ((c' :: rs'') ++ rest) = mkTok k (c' :: rs'') :: tokenize rest :=
        ih (by simp) (fun a ha => hall a (List.mem_cons_of_mem c ha))
      rw [show ((c :: c' :: rs'') ++ rest) = c :: ((c' :: rs'') ++ rest) from rfl,
        tokenize_cons, step, tokStep_cons, mkTok_kind hk, if_pos hc.symm,
        Tok.push_eq, mkTok_kind hk, mkTok_run]

/-- Tokenizing never loses or reorders characters. -/
theorem flatten_tokenize : ∀ cs : List Char, flattenToks (tokenize cs) = cs := by
  intro cs
  induction cs with
  | nil => rfl
  | cons c cs ih =>
    rw [tokenize_cons]
    cases h : tokenize cs with
    | nil =>
      rw [h] at ih
      simp only [flattenToks] at ih
      rw [tokStep_nil]
      simp only [flattenToks, List.foldr_cons, List.foldr_nil, mkTok_run]
      simp [← ih]
    | cons t ts =>
      rw [h] at ih
      rw [tokStep_cons]
      by_cases hk : t.kind = classOf c
      · rw [if_pos hk]
        simp only [flattenToks, List.foldr_cons] at ih ⊢
        rw [Tok.push_eq, mkTok_run]
        simp [← ih]
      · rw [if_neg hk]
        simp only [flattenToks, List.foldr_cons] at ih ⊢
        rw [mkTok_run]
        simp [← ih, flattenToks]

/-- Every token produced by the splitter is a nonempty run of characters
of the token's class. -/
theorem tokenize_wf : ∀ (cs : List Char) (t : Tok), t ∈ tokenize cs →
    t.run ≠ [] ∧ ∀ c ∈ t.run, classOf c = t.kind := by
  intro cs
  induction cs with
  | nil => intro t ht; simp [tokenize] at ht
  | cons c cs ih =>
    intro t ht
    rw [tokenize_cons] at ht
    cases h : tokenize cs with
    | nil =>
      rw [h, tokStep_nil, List.mem_singleton] at ht
      subst ht
      rw [mkTok_run, mkTok_kind classOf_le]
      exact ⟨by simp, by intro x hx; simp at hx; subst hx; rfl⟩
    | cons t0 ts =>
      rw [h, tokStep_cons] at ht
      by_cases hk : t0.kind = classOf c
      · rw [if_pos hk] at ht
        rcases List.mem_cons.mp ht with h1 | h1
        · subst h1
          obtain ⟨hne0, hall0⟩ := ih t0 (h ▸ List.mem_cons_self t0 ts)
          rw [Tok.push_eq, mkTok_run, hk, mkTok_kind classOf_le]
          refine ⟨by simp, ?_⟩
          intro x hx
          rcases List.mem_cons.mp hx with h2 | h2
          · subst h2; rfl
          · rw [← hk]; exact hall0 x h2
        · exact ih t (h ▸ List.mem_cons_of_mem t0 h1)
      · rw [if_neg hk] at ht
        rcases List.mem_cons.mp ht with h1 | h1
        · subst h1
          rw [mkTok_run, mkTok_kind classOf_le]
          exact ⟨by simp, by intro x hx; simp at hx; subst hx; rfl⟩
        · exact ih t (h ▸ h1)

/-! ### Span lemmas -/

/-- takeWhile/dropWhile on a run followed by a boundary. -/
theorem span_run (p : Char → Bool) (rs rest : List Char)
    (hall : ∀ c ∈ rs, p c = true)
    (hb : ∀ x xs, rest = x :: xs → p x = false) :
    (rs ++ rest).takeWhile p = rs ∧ (rs ++ rest).dropWhile p = rest := by
  induction rs with
  | nil =>
    cases hr : rest with
    | nil => simp
    | cons x xs =>
      have := hb x xs hr
      subst hr
      simp [List.takeWhile_cons, List.dropWhile_cons, this]
  | cons c rs' ih =>
    have hc : p c = true := hall c (by simp)
    obtain ⟨ih1, ih2⟩ := ih (fun a ha => hall a (List.mem_cons_of_mem c ha))
    simp [List.takeWhile_cons, List.dropWhile_cons, hc, ih1, ih2]

/-! ### Field-value lemmas -/

theorem fieldVal_eq_some {lo hi : Nat} {ds : List Char} {v : Nat}
    (h : fieldVal lo hi ds = some v) :
    fieldOk lo hi ds = true ∧ v = digitsToNat ds := by
  unfold fieldVal at h
  by_cases h1 : fieldOk lo hi ds = true
  · rw [if_pos h1] at h
    exact ⟨h1, (Option.some.inj h).symm⟩
  · rw [if_neg h1] at h
    cases h

theorem fieldVal_of_ok {lo hi : Nat} {ds : List Char} (h : fieldOk lo hi ds = true) :
    fieldVal lo hi ds = some (digitsToNat ds) := by
  unfold fieldVal
  rw [if_pos h]

theorem fieldOk_length {lo hi : Nat} {ds : List Char} (h : fieldOk lo hi ds = true) :
    ds.length = 1 ∨ ds.length = 2 := by
  unfold fieldOk at h
  simp only [Bool.and_eq_true, Bool.or_eq_true, decide_eq_true_eq] at h
  tauto

theorem fieldOk_ne_nil {lo hi : Nat} {ds : List Char} (h : fieldOk lo hi ds = true) :
    ds ≠ [] := by
  rcases fieldOk_length h with h1 | h1 <;> exact fun hn => by simp [hn] at h1

/-- Decomposition of a successful parseDate run. -/
theorem parseDate_decomp {cs : List Char} {y m d : Nat} {rest : List Char}
    (h : parseDate cs = some (y, m, d, rest)) :
    (cs.takeWhile Char.isDigit).length = 4 ∧
    y = digitsToNat (cs.takeWhile Char.isDigit) ∧
    ∃ r2 r4,
      cs.dropWhile Char.isDigit = '-' :: r2 ∧
      fieldVal 1 12 (r2.takeWhile Char.isDigit) = some m ∧
      r2.dropWhile Char.isDigit = '-' :: r4 ∧
      fieldVal 1 31 (r4.takeWhile Char.isDigit) = some d ∧
      (r4.dropWhile Char.isDigit).takeWhile Char.isWhitespace ≠ [] ∧
      rest = (r4.dropWhile Char.isDigit).dropWhile Char.isWhitespace := by
  simp only [parseDate] at h
  split at h
  · rename_i hy4
    split at h
    · rename_i r2 heq1
      split at h
      · rename_i m' r4 heqm heq2
        split at h
        · rename_i d' heqd
          split at h
          · exact absurd h (by simp)
          · rename_i hw
            simp only [Option.some.injEq, Prod.mk.injEq] at h
            obtain ⟨hy, hm, hd2, hrest⟩ := h
            rw [hm] at heqm
            rw [hd2] at heqd
            refine ⟨hy4, hy.symm, r2, r4, heq1, heqm, heq2, heqd, ?_, hrest.symm⟩
            intro hn
            exact hw (by simp [hn])
        · exact absurd h (by simp)
      · exact absurd h (by simp)
    · exact absurd h (by simp)
  · exact absurd h (by simp)

/-- Decomposition of a successful parseTime24 run. -/
theorem parseTime24_decomp {cs : List Char} {h24 mi : Nat}
    (h : parseTime24 cs = some (h24, mi)) :
    fieldVal 0 23 (cs.takeWhile Char.isDigit) = some h24 ∧
    ∃ r2, cs.dropWhile Char.isDigit = ':' :: r2 ∧
      fieldVal 0 59 (r2.takeWhile Char.isDigit) = some mi ∧
      r2.dropWhile Char.isDigit = [] := by
  simp only [parseTime24] at h
  split at h
  · rename_i h' r2 heqh heq1
    split at h
    · rename_i mi' heqm
      split at h
      · rename_i hemp
        simp only [Option.some.injEq, Prod.mk.injEq] at h
        obtain ⟨hh, hm⟩ := h
        rw [hh] at heqh
        rw [hm] at heqm
        exact ⟨heqh, r2, heq1, heqm, by simpa using hemp⟩
      · exact absurd h (by simp)
    · exact absurd h (by simp)
  · exact absurd h (by simp)

/-- Decomposition of a successful parseTime12 run. -/
theorem parseTime12_decomp {cs : List Char} {h24 mi : Nat}
    (h : parseTime12 cs = some (h24, mi)) :
    ∃ hv pm, fieldVal 1 12 (cs.takeWhile Char.isDigit) = some hv ∧
      meridiem (cs.dropWhile Char.isDigit) = some pm ∧
      h24 = hour12to24 hv pm ∧ mi = 0 := by
  simp only [parseTime12] at h
  split at h
  · rename_i hv pm heqh heqp
    simp only [Option.some.injEq, Prod.mk.injEq] at h
    exact ⟨hv, pm, heqh, heqp, h.1.symm, h.2.symm⟩
  · exact absurd h (by simp)

/-- Decomposition of a successful parseTime12Min run. -/
theorem parseTime12Min_decomp {cs : List Char} {h24 mi : Nat}
    (h : parseTime12Min cs = some (h24, mi)) :
    ∃ hv pm r2, fieldVal 1 12 (cs.takeWhile Char.isDigit) = some hv ∧
      cs.dropWhile Char.isDigit = ':' :: r2 ∧
      fieldVal 0 59 (r2.takeWhile Char.isDigit) = some mi ∧
      meridiem (r2.dropWhile Char.isDigit) = some pm ∧
      h24 = hour12to24 hv pm := by
  simp only [parseTime12Min] at h
  split at h
  · rename_i hv r2 heqh heq1
    split at h
    · rename_i mi' pm heqm heqp
      simp only [Option.some.injEq, Prod.mk.injEq] at h
      obtain ⟨hh, hm⟩ := h
      rw [hm] at heqm
      exact ⟨hv, pm, r2, heqh, heq1, heqm, heqp, hh.symm⟩
    · exact absurd h (by simp)
  · exact absurd h (by simp)

/-- Shape of a successful meridiem match. -/
theorem meridiem_some_shape {p : List Char} {pm : Bool} (h : meridiem p = some pm) :
    ∃ a b, p = [a, b] ∧
      (a == 'a' || a == 'A' || a == 'p' || a == 'P') = true ∧
      (b == 'm' || b == 'M') = true := by
  unfold meridiem at h
  split at h
  · rename_i a b
    split at h
    · rename_i hc
      rw [Bool.and_eq_true] at hc
      refine ⟨a, b, rfl, ?_, hc.2⟩
      simp only [Bool.or_eq_true] at hc ⊢
      tauto
    · split at h
      · rename_i hc
        rw [Bool.and_eq_true] at hc
        refine ⟨a, b, rfl, ?_, hc.2⟩
        simp only [Bool.or_eq_true] at hc ⊢
        tauto
      · cases h
  · cases h

/-- The first character of a meridiem is a letter and not a digit, a
whitespace, a colon, or a dash. -/
theorem meridiem_head_facts {a : Char}
    (h : (a == 'a' || a == 'A' || a == 'p' || a == 'P') = true) :
    classOf a = 2 ∧ a.isDigit = false ∧ a ≠ ':' := by
  simp only [Bool.or_eq_true, beq_iff_eq] at h
  rcases h with ((h1 | h1) | h1) | h1 <;> subst h1 <;>
    exact ⟨by decide, by decide, by decide⟩

/-- The second character of a meridiem is a letter. -/
theorem meridiem_snd_facts {b : Char} (h : (b == 'm' || b == 'M') = true) :
    classOf b = 2 := by
  simp only [Bool.or_eq_true, beq_iff_eq] at h
  rcases h with h1 | h1 <;> subst h1 <;> decide

/-! ### Token-shape composition lemmas -/

/-- Tokenizing the shared date prefix followed by a time tail whose first
character is a digit. -/
theorem tokenize_date (ys ms ds2 w tail : List Char)
    (hys : ∀ c ∈ ys, c.isDigit = true) (hysne : ys ≠ [])
    (hms : ∀ c ∈ ms, c.isDigit = true) (hmsne : ms ≠ [])
    (hds : ∀ c ∈ ds2, c.isDigit = true) (hdsne : ds2 ≠ [])
    (hw : ∀ c ∈ w, c.isWhitespace = true) (hwne : w ≠ [])
    (htail : ∀ x xs, tail = x :: xs → x.isDigit = true) (htailne : tail ≠ []) :
    tokenize (ys ++ '-' :: (ms ++ '-' :: (ds2 ++ (w ++ tail))))
      = .digits ys :: .other ['-'] :: .digits ms :: .other ['-'] :: .digits ds2 ::
        .white w :: tokenize tail := by
  obtain ⟨mc, ms', hmseq⟩ := List.exists_cons_of_ne_nil hmsne
  obtain ⟨dc, ds', hdseq⟩ := List.exists_cons_of_ne_nil hdsne
  obtain ⟨wc, w', hweq⟩ := List.exists_cons_of_ne_nil hwne
  obtain ⟨tc, t', hteq⟩ := List.exists_cons_of_ne_nil htailne
  have h1 : tokenize (ys ++ '-' :: (ms ++ '-' :: (ds2 ++ (w ++ tail))))
      = mkTok 0 ys :: tokenize ('-' :: (ms ++ '-' :: (ds2 ++ (w ++ tail)))) := by
    refine tokenize_run_append 0 ys _ (by omega) hysne
      (fun c hc => digit_classOf (hys c hc)) ?_
    intro x xs hx
    rw [List.cons.injEq] at hx
    rw [← hx.1]
    decide
  have h2 : tokenize ('-' :: (ms ++ '-' :: (ds2 ++ (w ++ tail))))
      = mkTok 3 ['-'] :: tokenize (ms ++ '-' :: (ds2 ++ (w ++ tail))) := by
    refine tokenize_run_append 3 ['-'] (ms ++ '-' :: (ds2 ++ (w ++ tail)))
      (by omega) (by simp)
      (by intro c hc; simp at hc; subst hc; decide) ?_
    intro x xs hx
    rw [hmseq, List.cons_append, List.cons.injEq] at hx
    rw [← hx.1, digit_classOf (hms mc (by rw [hmseq]; simp))]
    omega
  have h3 : tokenize (ms ++ '-' :: (ds2 ++ (w ++ tail)))
      = mkTok 0 ms :: tokenize ('-' :: (ds2 ++ (w ++ tail))) := by
    refine tokenize_run_append 0 ms _ (by omega) hmsne
      (fun c hc => digit_classOf (hms c hc)) ?_
    intro x xs hx
    rw [List.cons.injEq] at hx
    rw [← hx.1]
    decide
  have h4 : tokenize ('-' :: (ds2 ++ (w ++ tail)))
      = mkTok 3 ['-'] :: tokenize (ds2 ++ (w ++ tail)) := by
    refine tokenize_run_append 3 ['-'] (ds2 ++ (w ++ tail)) (by omega) (by simp)
      (by intro c hc; simp at hc; subst hc; decide) ?_
    intro x xs hx
    rw [hdseq, List.cons_append, List.cons.injEq] at hx
    rw [← hx.1, digit_classOf (hds dc (by rw [hdseq]; simp))]
    omega
  have h5 : tokenize (ds2 ++ (w ++ tail))
      = mkTok 0 ds2 :: tokenize (w ++ tail) := by
    refine tokenize_run_append 0 ds2 _ (by omega) hdsne
      (fun c hc => digit_classOf (hds c hc)) ?_
    intro x xs hx
    rw [hweq, List.cons_append, List.cons.injEq] at hx
    rw [← hx.1, ws_classOf (hw wc (by rw [hweq]; simp))]
    omega
  have h6 : tokenize (w ++ tail) = mkTok 1 w :: tokenize tail := by
    refine tokenize_run_append 1 w _ (by omega) hwne
      (fun c hc => ws_classOf (hw c hc)) ?_
    intro x xs hx
    rw [digit_classOf (htail x xs hx)]
    omega
  rw [h1, h2, h3, h4, h5, h6]
  rfl

/-- Tokenizing the "%H:%M" tail shape. -/
theorem tokenize_time24 (hs mins : List Char)
    (hhs : ∀ c ∈ hs, c.isDigit = true) (hhsne : hs ≠ [])
    (hm : ∀ c ∈ mins, c.isDigit = true) (hmne : mins ≠ []) :
    tokenize (hs ++ ':' :: mins) = [.digits hs, .other [':'], .digits mins] := by
  have h1 : tokenize (hs ++ ':' :: mins) = mkTok 0 hs :: tokenize (':' :: mins) := by
    refine tokenize_run_append 0 hs _ (by omega) hhsne
      (fun c hc => digit_classOf (hhs c hc)) ?_
    intro x xs hx
    rw [List.cons.injEq] at hx
    rw [← hx.1]
    decide
  obtain ⟨mc, ms', hmeq⟩ := List.exists_cons_of_ne_nil hmne
  have h2 : tokenize (':' :: mins) = mkTok 3 [':'] :: tokenize mins := by
    refine tokenize_run_append 3 [':'] mins (by omega) (by simp)
      (by intro c hc; simp at hc; subst hc; decide) ?_
    intro x xs hx
    rw [hmeq, List.cons.injEq] at hx
    rw [← hx.1, digit_classOf (hm mc (by rw [hmeq]; simp))]
    omega
  have h3 : tokenize mins = [mkTok 0 mins] := by
    have := tokenize_run_append 0 mins [] (by omega) hmne
      (fun c hc => digit_classOf (hm c hc)) (by intro x xs hx; cases hx)
    simpa using this
  rw [h1, h2, h3]
  rfl

/-- Tokenizing the "%I%p" tail shape. -/
theorem tokenize_time12 (hs : List Char) (a b : Char)
    (hhs : ∀ c ∈ hs, c.isDigit = true) (hhsne : hs ≠ [])
    (ha : classOf a = 2) (hb : classOf b = 2) :
    tokenize (hs ++ [a, b]) = [.digits hs, .alpha [a, b]] := by
  have h1 : tokenize (hs ++ [a, b]) = mkTok 0 hs :: tokenize [a, b] := by
    refine tokenize_run_append 0 hs _ (by omega) hhsne
      (fun c hc => digit_classOf (hhs c hc)) ?_
    intro x xs hx
    rw [List.cons.injEq] at hx
    rw [← hx.1, ha]
    omega
  have h2 : tokenize [a, b] = [mkTok 2 [a, b]] := by
    have := tokenize_run_append 2 [a, b] [] (by omega) (by simp)
      (by intro c hc; simp at hc; rcases hc with h | h <;> subst h <;> assumption)
      (by intro x xs hx; cases hx)
    simpa using this
  rw [h1, h2]
  rfl

/-- Tokenizing the "%I:%M%p" tail shape. -/
theorem tokenize_time12m (hs mins : List Char) (a b : Char)
    (hhs : ∀ c ∈ hs, c.isDigit = true) (hhsne : hs ≠ [])
    (hm : ∀ c ∈ mins, c.isDigit = true) (hmne : mins ≠ [])
    (ha : classOf a = 2) (hb : classOf b = 2) :
    tokenize (hs ++ ':' :: (mins ++ [a, b]))
      = [.digits hs, .other [':'], .digits mins, .alpha [a, b]] := by
  have h1 : tokenize (hs ++ ':' :: (mins ++ [a, b]))
      = mkTok 0 hs :: tokenize (':' :: (mins ++ [a, b])) := by
    refine tokenize_run_append 0 hs _ (by omega) hhsne
      (fun c hc => digit_classOf (hhs c hc)) ?_
    intro x xs hx
    rw [List.cons.injEq] at hx
    rw [← hx.1]
    decide
  obtain ⟨mc, ms', hmeq⟩ := List.exists_cons_of_ne_nil hmne
  have h2 : tokenize (':' :: (mins ++ [a, b]))
      = mkTok 3 [':'] :: tokenize (mins ++ [a, b]) := by
    refine tokenize_run_append 3 [':'] (mins ++ [a, b]) (by omega) (by simp)
      (by intro c hc; simp at hc; subst hc; decide) ?_
    intro x xs hx
    rw [hmeq, List.cons_append, List.cons.injEq] at hx
    rw [← hx.1, digit_classOf (hm mc (by rw [hmeq]; simp))]
    omega
  have h3 : tokenize (mins ++ [a, b]) = mkTok 0 mins :: tokenize [a, b] := by
    refine tokenize_run_append 0 mins _ (by omega) hmne
      (fun c hc => digit_classOf (hm c hc)) ?_
    intro x xs hx
    rw [List.cons.injEq] at hx
    rw [← hx.1, ha]
    omega
  have h4 : tokenize [a, b] = [mkTok 2 [a, b]] := by
    have := tokenize_run_append 2 [a, b] [] (by omega) (by simp)
      (by intro c hc; simp at hc; rcases hc with h | h <;> subst h <;> assumption)
      (by intro x xs hx; cases hx)
    simpa using this
  rw [h1, h2, h3, h4]
  rfl

/-! ### Forward direction: parser success determines the token shape -/

theorem strptime24_to_tok {cs : List Char} {r : DateTime}
    (h : strptimeWith parseTime24 cs = some r) : tokParse cs = some r := by
  simp only [strptimeWith] at h
  split at h
  · rename_i y m d rest heqd
    split at h
    · rename_i h24 mi heqt
      split at h
      · rename_i hvd
        rw [Option.some.injEq] at h
        obtain ⟨hy4, hyval, r2, r4, heq1, hmfv, heq2, hdfv, hwne, hrest⟩ :=
          parseDate_decomp heqd
        obtain ⟨hhfv, r8, heq3, hmifv, hr8end⟩ := parseTime24_decomp heqt
        obtain ⟨hok_ms, hmval⟩ := fieldVal_eq_some hmfv
        obtain ⟨hok_ds, hdval⟩ := fieldVal_eq_some hdfv
        obtain ⟨hok_hs, hhval⟩ := fieldVal_eq_some hhfv
        obtain ⟨hok_mi, hmival⟩ := fieldVal_eq_some hmifv
        have hr8 : r8 = r8.takeWhile Char.isDigit := by
          conv_lhs => rw [← List.takeWhile_append_dropWhile Char.isDigit r8]
          rw [hr8end, List.append_nil]
        have hok_mins : fieldOk 0 59 r8 = true := by rw [hr8]; exact hok_mi
        have hhsne : rest.takeWhile Char.isDigit ≠ [] := fieldOk_ne_nil hok_hs
        have hrestdec : rest = rest.takeWhile Char.isDigit ++ ':' :: r8 := by
          conv_lhs => rw [← List.takeWhile_append_dropWhile Char.isDigit rest]
          rw [heq3]
        have hr8digit : ∀ c ∈ r8, c.isDigit = true := by
          intro c hc
          rw [hr8] at hc
          exact List.mem_takeWhile_imp hc
        have htok2 : tokenize rest
            = [.digits (rest.takeWhile Char.isDigit), .other [':'], .digits r8] := by
          conv_lhs => rw [hrestdec]
          exact tokenize_time24 _ _ (fun c hc => List.mem_takeWhile_imp hc) hhsne
            hr8digit (fieldOk_ne_nil hok_mins)
        have hcs : cs = cs.takeWhile Char.isDigit ++ '-' ::
            (r2.takeWhile Char.isDigit ++ '-' ::
              (r4.takeWhile Char.isDigit ++
                ((r4.dropWhile Char.isDigit).takeWhile Char.isWhitespace ++ rest))) := by
          conv_lhs => rw [← List.takeWhile_append_dropWhile Char.isDigit cs]
          rw [heq1]
          congr 2
          conv_lhs => rw [← List.takeWhile_append_dropWhile Char.isDigit r2]
          rw [heq2]
          congr 2
          conv_lhs => rw [← List.takeWhile_append_dropWhile Char.isDigit r4]
          congr 1
          conv_lhs =>
            rw [← List.takeWhile_append_dropWhile Char.isWhitespace
              (r4.dropWhile Char.isDigit)]
          rw [← hrest]
        have htok : tokenize cs
            = .digits (cs.takeWhile Char.isDigit) :: .other ['-'] ::
              .digits (r2.takeWhile Char.isDigit) :: .other ['-'] ::
              .digits (r4.takeWhile Char.isDigit) ::
              .white ((r4.dropWhile Char.isDigit).takeWhile Char.isWhitespace) ::
              tokenize rest := by
          conv_lhs => rw [hcs]
          refine tokenize_date _ _ _ _ _ (fun c hc => List.mem_takeWhile_imp hc)
            (fun h0 => by simp [h0] at hy4)
            (fun c hc => List.mem_takeWhile_imp hc) (fieldOk_ne_nil hok_ms)
            (fun c hc => List.mem_takeWhile_imp hc) (fieldOk_ne_nil hok_ds)
            (fun c hc => List.mem_takeWhile_imp hc) hwne ?_ ?_
          · intro x xs hx
            obtain ⟨hc, hs', hhseq⟩ := List.exists_cons_of_ne_nil hhsne
            rw [hrestdec, hhseq, List.cons_append, List.cons.injEq] at hx
            rw [← hx.1]
            exact List.mem_takeWhile_imp (l := rest) (by rw [hhseq]; simp)
          · rw [hrestdec]
            obtain ⟨hc, hs', hhseq⟩ := List.exists_cons_of_ne_nil hhsne
            rw [hhseq]
            simp
        rw [htok2] at htok
        unfold tokParse
        rw [htok]
        simp only [tokShape]
        rw [← hr8] at hmival
        rw [if_pos]
        · rw [← h, Option.some.injEq]
          rw [hyval, hmval, hdval, hhval, hmival]
        · refine ⟨trivial, trivial, trivial, ?_⟩
          rw [hyval, hmval, hdval] at hvd
          simp [hy4, hok_ms, hok_ds, hvd, hok_hs, hok_mins]
      · exact absurd h (by simp)
    · exact absurd h (by simp)
  · exact absurd h (by simp)

theorem strptime12_to_tok {cs : List Char} {r : DateTime}
    (h : strptimeWith parseTime12 cs = some r) : tokParse cs = some r := by
  simp only [strptimeWith] at h
  split at h
  · rename_i y m d rest heqd
    split at h
    · rename_i h24 mi heqt
      split at h
      · rename_i hvd
        rw [Option.some.injEq] at h
        obtain ⟨hy4, hyval, r2, r4, heq1, hmfv, heq2, hdfv, hwne, hrest⟩ :=
          parseDate_decomp heqd
        obtain ⟨hv, pm, hhfv, hmer, hh24, hmi0⟩ := parseTime12_decomp heqt
        obtain ⟨hok_ms, hmval⟩ := fieldVal_eq_some hmfv
        obtain ⟨hok_ds, hdval⟩ := fieldVal_eq_some hdfv
        obtain ⟨hok_hs, hhval⟩ := fieldVal_eq_some hhfv
        obtain ⟨a, b, hab, hfa, hfb⟩ := meridiem_some_shape hmer
        obtain ⟨hca, hda, hna⟩ := meridiem_head_facts hfa
        have hcb := meridiem_snd_facts hfb
        have hhsne : rest.takeWhile Char.isDigit ≠ [] := fieldOk_ne_nil hok_hs
        have hrestdec : rest = rest.takeWhile Char.isDigit ++ [a, b] := by
          conv_lhs => rw [← List.takeWhile_append_dropWhile Char.isDigit rest]
          rw [hab]
        have hmer2 : meridiem [a, b] = some pm := by rw [← hab]; exact hmer
        have htok2 : tokenize rest
            = [.digits (rest.takeWhile Char.isDigit), .alpha [a, b]] := by
          conv_lhs => rw [hrestdec]
          exact tokenize_time12 _ a b (fun c hc => List.mem_takeWhile_imp hc) hhsne
            hca hcb
        have hcs : cs = cs.takeWhile Char.isDigit ++ '-' ::
            (r2.takeWhile Char.isDigit ++ '-' ::
              (r4.takeWhile Char.isDigit ++
                ((r4.dropWhile Char.isDigit).takeWhile Char.isWhitespace ++ rest))) := by
          conv_lhs => rw [← List.takeWhile_append_dropWhile Char.isDigit cs]
          rw [heq1]
          congr 2
          conv_lhs => rw [← List.takeWhile_append_dropWhile Char.isDigit r2]
          rw [heq2]
          congr 2
          conv_lhs => rw [← List.takeWhile_append_dropWhile Char.isDigit r4]
          congr 1
          conv_lhs =>
            rw [← List.takeWhile_append_dropWhile Char.isWhitespace
              (r4.dropWhile Char.isDigit)]
          rw [← hrest]
        have htok : tokenize cs
            = .digits (cs.takeWhile Char.isDigit) :: .other ['-'] ::
              .digits (r2.takeWhile Char.isDigit) :: .other ['-'] ::
              .digits (r4.takeWhile Char.isDigit) ::
              .white ((r4.dropWhile Char.isDigit).takeWhile Char.isWhitespace) ::
              tokenize rest := by
          conv_lhs => rw [hcs]
          refine tokenize_date _ _ _ _ _ (fun c hc => List.mem_takeWhile_imp hc)
            (fun h0 => by simp [h0] at hy4)
            (fun c hc => List.mem_takeWhile_imp hc) (fieldOk_ne_nil hok_ms)
            (fun c hc => List.mem_takeWhile_imp hc) (fieldOk_ne_nil hok_ds)
            (fun c hc => List.mem_takeWhile_imp hc) hwne ?_ ?_
          · intro x xs hx
            obtain ⟨hc, hs', hhseq⟩ := List.exists_cons_of_ne_nil hhsne
            rw [hrestdec, hhseq, List.cons_append, List.cons.injEq] at hx
            rw [← hx.1]
            exact List.mem_takeWhile_imp (l := rest) (by rw [hhseq]; simp)
          · rw [hrestdec]
            obtain ⟨hc, hs', hhseq⟩ := List.exists_cons_of_ne_nil hhsne
            rw [hhseq]
            simp
        rw [htok2] at htok
        unfold tokParse
        rw [htok]
        simp only [tokShape, hmer2]
        rw [if_pos]
        · rw [← h, Option.some.injEq]
          rw [hyval, hmval, hdval, hh24, hhval, hmi0]
        · refine ⟨trivial, trivial, ?_⟩
          rw [hyval, hmval, hdval] at hvd
          simp [hy4, hok_ms, hok_ds, hvd, hok_hs]
      · exact absurd h (by simp)
    · exact absurd h (by simp)
  · exact absurd h (by simp)

theorem strptime12m_to_tok {cs : List Char} {r : DateTime}
    (h : strptimeWith parseTime12Min cs = some r) : tokParse cs = some r := by
  simp only [strptimeWith] at h
  split at h
  · rename_i y m d rest heqd
    split at h
    · rename_i h24 mi heqt
      split at h
      · rename_i hvd
        rw [Option.some.injEq] at h
        obtain ⟨hy4, hyval, r2, r4, heq1, hmfv, heq2, hdfv, hwne, hrest⟩ :=
          parseDate_decomp heqd
        obtain ⟨hv, pm, r8, hhfv, heq3, hmifv, hmer, hh24⟩ := parseTime12Min_decomp heqt
        obtain ⟨hok_ms, hmval⟩ := fieldVal_eq_some hmfv
        obtain ⟨hok_ds, hdval⟩ := fieldVal_eq_some hdfv
        obtain ⟨hok_hs, hhval⟩ := fieldVal_eq_some hhfv
        obtain ⟨hok_mi, hmival⟩ := fieldVal_eq_some hmifv
        obtain ⟨a, b, hab, hfa, hfb⟩ := meridiem_some_shape hmer
        obtain ⟨hca, hda, hna⟩ := meridiem_head_facts hfa
        have hcb := meridiem_snd_facts hfb
        have hhsne : rest.takeWhile Char.isDigit ≠ [] := fieldOk_ne_nil hok_hs
        have hminsne : r8.takeWhile Char.isDigit ≠ [] := fieldOk_ne_nil hok_mi
        have hr8dec : r8 = r8.takeWhile Char.isDigit ++ [a, b] := by
          conv_lhs => rw [← List.takeWhile_append_dropWhile Char.isDigit r8]
          rw [hab]
        have hmer2 : meridiem [a, b] = some pm := by rw [← hab]; exact hmer
        have hrestdec : rest = rest.takeWhile Char.isDigit ++ ':' ::
            (r8.takeWhile Char.isDigit ++ [a, b]) := by
          conv_lhs => rw [← List.takeWhile_append_dropWhile Char.isDigit rest]
          rw [heq3, ← hr8dec]
        have htok2 : tokenize rest
            = [.digits (rest.takeWhile Char.isDigit), .other [':'],
               .digits (r8.takeWhile Char.isDigit), .alpha [a, b]] := by
          conv_lhs => rw [hrestdec]
          exact tokenize_time12m _ _ a b (fun c hc => List.mem_takeWhile_imp hc) hhsne
            (fun c hc => List.mem_takeWhile_imp hc) hminsne hca hcb
        have hcs : cs = cs.takeWhile Char.isDigit ++ '-' ::
            (r2.takeWhile Char.isDigit ++ '-' ::
              (r4.takeWhile Char.isDigit ++
                ((r4.dropWhile Char.isDigit).takeWhile Char.isWhitespace ++ rest))) := by
          conv_lhs => rw [← List.takeWhile_append_dropWhile Char.isDigit cs]
          rw [heq1]
          congr 2
          conv_lhs => rw [← List.takeWhile_append_dropWhile Char.isDigit r2]
          rw [heq2]
          congr 2
          conv_lhs => rw [← List.takeWhile_append_dropWhile Char.isDigit r4]
          congr 1
          conv_lhs =>
            rw [← List.takeWhile_append_dropWhile Char.isWhitespace
              (r4.dropWhile Char.isDigit)]
          rw [← hrest]
        have htok : tokenize cs
            = .digits (cs.takeWhile Char.isDigit) :: .other ['-'] ::
              .digits (r2.takeWhile Char.isDigit) :: .other ['-'] ::
              .digits (r4.takeWhile Char.isDigit) ::
              .white ((r4.dropWhile Char.isDigit).takeWhile Char.isWhitespace) ::
              tokenize rest := by
          conv_lhs => rw [hcs]
          refine tokenize_date _ _ _ _ _ (fun c hc => List.mem_takeWhile_imp hc)
            (fun h0 => by simp [h0] at hy4)
            (fun c hc => List.mem_takeWhile_imp hc) (fieldOk_ne_nil hok_ms)
            (fun c hc => List.mem_takeWhile_imp hc) (fieldOk_ne_nil hok_ds)
            (fun c hc => List.mem_takeWhile_imp hc) hwne ?_ ?_
          · intro x xs hx
            obtain ⟨hc, hs', hhseq⟩ := List.exists_cons_of_ne_nil hhsne
            rw [hrestdec, hhseq, List.cons_append, List.cons.injEq] at hx
            rw [← hx.1]
            exact List.mem_takeWhile_imp (l := rest) (by rw [hhseq]; simp)
          · rw [hrestdec]
            obtain ⟨hc, hs', hhseq⟩ := List.exists_cons_of_ne_nil hhsne
            rw [hhseq]
            simp
        rw [htok2] at htok
        unfold tokParse
        rw [htok]
        simp only [tokShape, hmer2]
        rw [if_pos]
        · rw [← h, Option.some.injEq]
          rw [hyval, hmval, hdval, hh24, hhval, hmival]
        · refine ⟨trivial, trivial, trivial, ?_⟩
          rw [hyval, hmval, hdval] at hvd
          simp [hy4, hok_ms, hok_ds, hvd, hok_hs, hok_mi]
      · exact absurd h (by simp)
    · exact absurd h (by simp)
  · exact absurd h (by simp)

/-! ### Backward direction: computing the parser on a token decomposition -/

theorem ws_not_digit {c : Char} (h : c.isWhitespace = true) : c.isDigit = false := by
  rcases hd : c.isDigit with _ | _
  · rfl
  · rw [digit_not_ws hd] at h
    exact absurd h (by simp)

/-- meridiem never accepts a tail that starts with a colon. -/
theorem meridiem_colon (rest : List Char) : meridiem (':' :: rest) = none := by
  cases rest with
  | nil => rfl
  | cons x xs =>
    cases xs with
    | nil => simp [meridiem]
    | cons y ys => rfl

theorem parseDate_build (ys ms ds2 w tail : List Char)
    (hys : ∀ c ∈ ys, c.isDigit = true) (hy4 : ys.length = 4)
    (hms : ∀ c ∈ ms, c.isDigit = true) (hok_ms : fieldOk 1 12 ms = true)
    (hds : ∀ c ∈ ds2, c.isDigit = true) (hok_ds : fieldOk 1 31 ds2 = true)
    (hw : ∀ c ∈ w, c.isWhitespace = true) (hwne : w ≠ [])
    (htail : ∀ x xs, tail = x :: xs → x.isWhitespace = false) :
    parseDate (ys ++ '-' :: (ms ++ '-' :: (ds2 ++ (w ++ tail))))
      = some (digitsToNat ys, digitsToNat ms, digitsToNat ds2, tail) := by
  obtain ⟨wc, w', hweq⟩ := List.exists_cons_of_ne_nil hwne
  obtain ⟨ht1, hd1⟩ := span_run Char.isDigit ys ('-' :: (ms ++ '-' :: (ds2 ++ (w ++ tail))))
    hys (by intro x xs hx; rw [List.cons.injEq] at hx; rw [← hx.1]; decide)
  obtain ⟨ht2, hd2⟩ := span_run Char.isDigit ms ('-' :: (ds2 ++ (w ++ tail)))
    hms (by intro x xs hx; rw [List.cons.injEq] at hx; rw [← hx.1]; decide)
  obtain ⟨ht3, hd3⟩ := span_run Char.isDigit ds2 (w ++ tail) hds (by
    intro x xs hx
    rw [hweq, List.cons_append, List.cons.injEq] at hx
    rw [← hx.1]
    exact ws_not_digit (hw wc (by rw [hweq]; simp)))
  obtain ⟨ht4, hd4⟩ := span_run Char.isWhitespace w tail hw (fun x xs hx => htail x xs hx)
  simp only [parseDate]
  rw [ht1, hd1, if_pos hy4]
  simp only []
  rw [ht2, hd2, fieldVal_of_ok hok_ms]
  simp only []
  rw [ht3, hd3, fieldVal_of_ok hok_ds]
  simp only []
  rw [ht4, hd4]
  rw [if_neg (fun hh => hwne (by simpa using hh))]

theorem parseTime24_build (hs mins : List Char)
    (hhs : ∀ c ∈ hs, c.isDigit = true) (hok_hs : fieldOk 0 23 hs = true)
    (hm : ∀ c ∈ mins, c.isDigit = true) (hok_mins : fieldOk 0 59 mins = true) :
    parseTime24 (hs ++ ':' :: mins) = some (digitsToNat hs, digitsToNat mins) := by
  obtain ⟨ht1, hd1⟩ := span_run Char.isDigit hs (':' :: mins) hhs
    (by intro x xs hx; rw [List.cons.injEq] at hx; rw [← hx.1]; decide)
  have ht2 : mins.takeWhile Char.isDigit = mins := by
    have := span_run Char.isDigit mins [] hm (by intro x xs hx; cases hx)
    simpa using this.1
  have hd2 : mins.dropWhile Char.isDigit = [] := by
    have := span_run Char.isDigit mins [] hm (by intro x xs hx; cases hx)
    simpa using this.2
  simp only [parseTime24]
  rw [ht1, hd1, fieldVal_of_ok hok_hs]
  simp only []
  rw [ht2, hd2, fieldVal_of_ok hok_mins]
  simp only [List.isEmpty_nil, if_true]

theorem parseTime12_build (hs : List Char) (a b : Char) (pm : Bool)
    (hhs : ∀ c ∈ hs, c.isDigit = true) (hok_hs : fieldOk 1 12 hs = true)
    (hda : a.isDigit = false) (hmer : meridiem [a, b] = some pm) :
    parseTime12 (hs ++ [a, b]) = some (hour12to24 (digitsToNat hs) pm, 0) := by
  obtain ⟨ht1, hd1⟩ := span_run Char.isDigit hs [a, b] hhs
    (by intro x xs hx; rw [List.cons.injEq] at hx; rw [← hx.1]; exact hda)
  simp only [parseTime12]
  rw [ht1, hd1, fieldVal_of_ok hok_hs, hmer]

theorem parseTime12m_build (hs mins : List Char) (a b : Char) (pm : Bool)
    (hhs : ∀ c ∈ hs, c.isDigit = true) (hok_hs : fieldOk 1 12 hs = true)
    (hm : ∀ c ∈ mins, c.isDigit = true) (hok_mins : fieldOk 0 59 mins = true)
    (hda : a.isDigit = false) (hmer : meridiem [a, b] = some pm) :
    parseTime12Min (hs ++ ':' :: (mins ++ [a, b]))
      = some (hour12to24 (digitsToNat hs) pm, digitsToNat mins) := by
  obtain ⟨ht1, hd1⟩ := span_run Char.isDigit hs (':' :: (mins ++ [a, b])) hhs
    (by intro x xs hx; rw [List.cons.injEq] at hx; rw [← hx.1]; decide)
  obtain ⟨ht2, hd2⟩ := span_run Char.isDigit mins [a, b] hm
    (by intro x xs hx; rw [List.cons.injEq] at hx; rw [← hx.1]; exact hda)
  simp only [parseTime12Min]
  rw [ht1, hd1, fieldVal_of_ok hok_hs]
  simp only []
  rw [ht2, hd2, fieldVal_of_ok hok_mins, hmer]

/-- The 24-hour tail parser rejects the 12-hour-no-minutes shape. -/
theorem parseTime24_fail12 (hs : List Char) (a b : Char)
    (hhs : ∀ c ∈ hs, c.isDigit = true)
    (hda : a.isDigit = false) (hna : a ≠ ':') :
    parseTime24 (hs ++ [a, b]) = none := by
  obtain ⟨ht1, hd1⟩ := span_run Char.isDigit hs [a, b] hhs
    (by intro x xs hx; rw [List.cons.injEq] at hx; rw [← hx.1]; exact hda)
  simp only [parseTime24]
  rw [ht1, hd1]
  cases hfv : fieldVal 0 23 hs with
  | none => simp only []
  | some hv =>
    split
    · rename_i h' r2 heq1 heq2
      exfalso
      injection heq2 with h1 h2
      first
      | exact absurd h1.symm hna
      | exact absurd h1 hna
    · rfl

/-- The 24-hour tail parser rejects the 12-hour-with-minutes shape. -/
theorem parseTime24_fail12m (hs mins : List Char) (a b : Char)
    (hhs : ∀ c ∈ hs, c.isDigit = true) (hm : ∀ c ∈ mins, c.isDigit = true)
    (hda : a.isDigit = false) :
    parseTime24 (hs ++ ':' :: (mins ++ [a, b])) = none := by
  obtain ⟨ht1, hd1⟩ := span_run Char.isDigit hs (':' :: (mins ++ [a, b])) hhs
    (by intro x xs hx; rw [List.cons.injEq] at hx; rw [← hx.1]; decide)
  obtain ⟨ht2, hd2⟩ := span_run Char.isDigit mins [a, b] hm
    (by intro x xs hx; rw [List.cons.injEq] at hx; rw [← hx.1]; exact hda)
  simp only [parseTime24]
  rw [ht1, hd1]
  cases hfv : fieldVal 0 23 hs with
  | none => simp only []
  | some hv =>
    simp only []
    rw [ht2, hd2]
    cases hfv2 : fieldVal 0 59 mins with
    | none => simp only []
    | some mv =>
      simp only []
      rw [if_neg (by simp)]

/-- The 12-hour-no-minutes tail parser rejects any tail with a colon after
the hour run. -/
theorem parseTime12_failcolon (hs tl : List Char)
    (hhs : ∀ c ∈ hs, c.isDigit = true) :
    parseTime12 (hs ++ ':' :: tl) = none := by
  obtain ⟨ht1, hd1⟩ := span_run Char.isDigit hs (':' :: tl) hhs
    (by intro x xs hx; rw [List.cons.injEq] at hx; rw [← hx.1]; decide)
  simp only [parseTime12]
  rw [ht1, hd1, meridiem_colon]
  cases hfv : fieldVal 1 12 hs with
  | none => simp only []
  | some hv => simp only []

/-- A token-shape match determines a successful parse of the same value. -/
theorem tok_to_parseAll {cs : List Char} {r : DateTime}
    (h : tokParse cs = some r) : parseAll cs = some r := by
  have hwf := tokenize_wf cs
  unfold tokParse at h
  rw [tokShape.eq_def] at h
  split at h
  · rename_i ys s1 ms s2 ds2 w hs s3 mins heq
    split at h
    · rename_i hcond
      obtain ⟨hc1, hc2, hc3, hbool⟩ := hcond
      subst hc1
      subst hc2
      subst hc3
      simp only [Bool.and_eq_true, decide_eq_true_eq] at hbool
      obtain ⟨⟨⟨⟨⟨hy4, hok_ms⟩, hok_ds⟩, hvd⟩, hok_hs⟩, hok_mins⟩ := hbool
      have hysd : ∀ c ∈ ys, c.isDigit = true := fun c hc =>
        classOf_eq_zero.mp ((hwf (Tok.digits ys) (by rw [heq]; simp)).2 c hc)
      have hmsd : ∀ c ∈ ms, c.isDigit = true := fun c hc =>
        classOf_eq_zero.mp ((hwf (Tok.digits ms) (by rw [heq]; simp)).2 c hc)
      have hdsd : ∀ c ∈ ds2, c.isDigit = true := fun c hc =>
        classOf_eq_zero.mp ((hwf (Tok.digits ds2) (by rw [heq]; simp)).2 c hc)
      have hhsd : ∀ c ∈ hs, c.isDigit = true := fun c hc =>
        classOf_eq_zero.mp ((hwf (Tok.digits hs) (by rw [heq]; simp)).2 c hc)
      have hminsd : ∀ c ∈ mins, c.isDigit = true := fun c hc =>
        classOf_eq_zero.mp ((hwf (Tok.digits mins) (by rw [heq]; simp)).2 c hc)
      have hwws : ∀ c ∈ w, c.isWhitespace = true := fun c hc =>
        classOf_eq_one_ws ((hwf (Tok.white w) (by rw [heq]; simp)).2 c hc)
      have hwne : w ≠ [] := (hwf (Tok.white w) (by rw [heq]; simp)).1
      have hflat := flatten_tokenize cs
      rw [heq] at hflat
      simp only [flattenToks, List.foldr_cons, List.foldr_nil, Tok.run,
        List.append_nil, List.singleton_append] at hflat
      have hcs : cs = ys ++ '-' :: (ms ++ '-' :: (ds2 ++ (w ++ (hs ++ ':' :: mins)))) :=
        hflat.symm
      have hhsne : hs ≠ [] := fieldOk_ne_nil hok_hs
      obtain ⟨hc0, hs', hhseq⟩ := List.exists_cons_of_ne_nil hhsne
      have hpd := parseDate_build ys ms ds2 w (hs ++ ':' :: mins) hysd hy4 hmsd hok_ms
        hdsd hok_ds hwws hwne (by
          intro x xs hx
          rw [hhseq, List.cons_append, List.cons.injEq] at hx
          rw [← hx.1]
          exact digit_not_ws (hhsd hc0 (by rw [hhseq]; simp)))
      have hfmt1 : strptimeWith parseTime24 cs
          = some ⟨digitsToNat ys, digitsToNat ms, digitsToNat ds2,
                  digitsToNat hs, digitsToNat mins⟩ := by
        unfold strptimeWith
        rw [hcs, hpd]
        simp only []
        rw [parseTime24_build hs mins hhsd hok_hs hminsd hok_mins]
        simp only []
        rw [if_pos hvd]
      unfold parseAll
      rw [hfmt1]
      exact h
    · exact absurd h (by simp)
  · rename_i ys s1 ms s2 ds2 w hs p heq
    split at h
    · rename_i pm heqm
      split at h
      · rename_i hcond
        obtain ⟨hc1, hc2, hbool⟩ := hcond
        subst hc1
        subst hc2
        simp only [Bool.and_eq_true, decide_eq_true_eq] at hbool
        obtain ⟨⟨⟨⟨hy4, hok_ms⟩, hok_ds⟩, hvd⟩, hok_hs⟩ := hbool
        obtain ⟨a, b, hab, hfa, hfb⟩ := meridiem_some_shape heqm
        obtain ⟨hca, hda, hna⟩ := meridiem_head_facts hfa
        rw [hab] at heq heqm
        have hysd : ∀ c ∈ ys, c.isDigit = true := fun c hc =>
          classOf_eq_zero.mp ((hwf (Tok.digits ys) (by rw [heq]; simp)).2 c hc)
        have hmsd : ∀ c ∈ ms, c.isDigit = true := fun c hc =>
          classOf_eq_zero.mp ((hwf (Tok.digits ms) (by rw [heq]; simp)).2 c hc)
        have hdsd : ∀ c ∈ ds2, c.isDigit = true := fun c hc =>
          classOf_eq_zero.mp ((hwf (Tok.digits ds2) (by rw [heq]; simp)).2 c hc)
        have hhsd : ∀ c ∈ hs, c.isDigit = true := fun c hc =>
          classOf_eq_zero.mp ((hwf (Tok.digits hs) (by rw [heq]; simp)).2 c hc)
        have hwws : ∀ c ∈ w, c.isWhitespace = true := fun c hc =>
          classOf_eq_one_ws ((hwf (Tok.white w) (by rw [heq]; simp)).2 c hc)
        have hwne : w ≠ [] := (hwf (Tok.white w) (by rw [heq]; simp)).1
        have hflat := flatten_tokenize cs
        rw [heq] at hflat
        simp only [flattenToks, List.foldr_cons, List.foldr_nil, Tok.run,
          List.append_nil, List.singleton_append] at hflat
        have hcs : cs = ys ++ '-' :: (ms ++ '-' :: (ds2 ++ (w ++ (hs ++ [a, b])))) :=
          hflat.symm
        have hhsne : hs ≠ [] := fieldOk_ne_nil hok_hs
        obtain ⟨hc0, hs', hhseq⟩ := List.exists_cons_of_ne_nil hhsne
        have hpd := parseDate_build ys ms ds2 w (hs ++ [a, b]) hysd hy4 hmsd hok_ms
          hdsd hok_ds hwws hwne (by
            intro x xs hx
            rw [hhseq, List.cons_append, List.cons.injEq] at hx
            rw [← hx.1]
            exact digit_not_ws (hhsd hc0 (by rw [hhseq]; simp)))
        have hfmt1 : strptimeWith parseTime24 cs = none := by
          unfold strptimeWith
          rw [hcs, hpd]
          simp only []
          rw [parseTime24_fail12 hs a b hhsd hda hna]
        have hfmt2 : strptimeWith parseTime12 cs
            = some ⟨digitsToNat ys, digitsToNat ms, digitsToNat ds2,
                    hour12to24 (digitsToNat hs) pm, 0⟩ := by
          unfold strptimeWith
          rw [hcs, hpd]
          simp only []
          rw [parseTime12_build hs a b pm hhsd hok_hs hda heqm]
          simp only []
          rw [if_pos hvd]
        unfold parseAll
        rw [hfmt1, hfmt2]
        exact h
      · exact absurd h (by simp)
    · exact absurd h (by simp)
  · rename_i ys s1 ms s2 ds2 w hs s3 mins p heq
    split at h
    · rename_i pm heqm
      split at h
      · rename_i hcond
        obtain ⟨hc1, hc2, hc3, hbool⟩ := hcond
        subst hc1
        subst hc2
        subst hc3
        simp only [Bool.and_eq_true, decide_eq_true_eq] at hbool
        obtain ⟨⟨⟨⟨⟨hy4, hok_ms⟩, hok_ds⟩, hvd⟩, hok_hs⟩, hok_mins⟩ := hbool
        obtain ⟨a, b, hab, hfa, hfb⟩ := meridiem_some_shape heqm
        obtain ⟨hca, hda, hna⟩ := meridiem_head_facts hfa
        rw [hab] at heq heqm
        have hysd : ∀ c ∈ ys, c.isDigit = true := fun c hc =>
          classOf_eq_zero.mp ((hwf (Tok.digits ys) (by rw [heq]; simp)).2 c hc)
        have hmsd : ∀ c ∈ ms, c.isDigit = true := fun c hc =>
          classOf_eq_zero.mp ((hwf (Tok.digits ms) (by rw [heq]; simp)).2 c hc)
        have hdsd : ∀ c ∈ ds2, c.isDigit = true := fun c hc =>
          classOf_eq_zero.mp ((hwf (Tok.digits ds2) (by rw [heq]; simp)).2 c hc)
        have hhsd : ∀ c ∈ hs, c.isDigit = true := fun c hc =>
          classOf_eq_zero.mp ((hwf (Tok.digits hs) (by rw [heq]; simp)).2 c hc)
        have hminsd : ∀ c ∈ mins, c.isDigit = true := fun c hc =>
          classOf_eq_zero.mp ((hwf (Tok.digits mins) (by rw [heq]; simp)).2 c hc)
        have hwws : ∀ c ∈ w, c.isWhitespace = true := fun c hc =>
          classOf_eq_one_ws ((hwf (Tok.white w) (by rw [heq]; simp)).2 c hc)
        have hwne : w ≠ [] := (hwf (Tok.white w) (by rw [heq]; simp)).1
        have hflat := flatten_tokenize cs
        rw [heq] at hflat
        simp only [flattenToks, List.foldr_cons, List.foldr_nil, Tok.run,
          List.append_nil, List.singleton_append] at hflat
        have hcs : cs = ys ++ '-' ::
            (ms ++ '-' :: (ds2 ++ (w ++ (hs ++ ':' :: (mins ++ [a, b]))))) :=
          hflat.symm
        have hhsne : hs ≠ [] := fieldOk_ne_nil hok_hs
        obtain ⟨hc0, hs', hhseq⟩ := List.exists_cons_of_ne_nil hhsne
        have hpd := parseDate_build ys ms ds2 w (hs ++ ':' :: (mins ++ [a, b])) hysd hy4
          hmsd hok_ms hdsd hok_ds hwws hwne (by
            intro x xs hx
            rw [hhseq, List.cons_append, List.cons.injEq] at hx
            rw [← hx.1]
            exact digit_not_ws (hhsd hc0 (by rw [hhseq]; simp)))
        have hfmt1 : strptimeWith parseTime24 cs = none := by
          unfold strptimeWith
          rw [hcs, hpd]
          simp only []
          rw [parseTime24_fail12m hs mins a b hhsd hminsd hda]
        have hfmt2 : strptimeWith parseTime12 cs = none := by
          unfold strptimeWith
          rw [hcs, hpd]
          simp only []
          rw [parseTime12_failcolon hs (mins ++ [a, b]) hhsd]
        have hfmt3 : strptimeWith parseTime12Min cs
            = some ⟨digitsToNat ys, digitsToNat ms, digitsToNat ds2,
                    hour12to24 (digitsToNat hs) pm, digitsToNat mins⟩ := by
          unfold strptimeWith
          rw [hcs, hpd]
          simp only []
          rw [parseTime12m_build hs mins a b pm hhsd hok_hs hminsd hok_mins hda heqm]
          simp only []
          rw [if_pos hvd]
        unfold parseAll
        rw [hfmt1, hfmt2, hfmt3]
        exact h
      · exact absurd h (by simp)
    · exact absurd h (by simp)
  · exact absurd h (by simp)

/-- A successful parse determines a token-shape match of the same value. -/
theorem parseAll_to_tok {cs : List Char} {r : DateTime}
    (h : parseAll cs = some r) : tokParse cs = some r := by
  unfold parseAll at h
  split at h
  · rename_i dt heq1
    rw [Option.some.injEq] at h
    rw [← h]
    exact strptime24_to_tok heq1
  · rename_i heq1
    split at h
    · rename_i dt heq2
      rw [Option.some.injEq] at h
      rw [← h]
      exact strptime12_to_tok heq2
    · exact strptime12m_to_tok h

/-- The sequential three-format parser and the independent run-list
recognizer agree on every input. -/
theorem parseAll_eq_tokParse (cs : List Char) : parseAll cs = tokParse cs := by
  cases h1 : parseAll cs with
  | some r => exact (parseAll_to_tok h1).symm
  | none =>
    cases h2 : tokParse cs with
    | some r =>
      have := tok_to_parseAll h2
      rw [h1] at this
      cases this
    | none => rfl

/-- C4 counterexample: the code accepts "2031-01-01 18:5" (single-digit
minute), which matches none of the claim's three grammars as written
(MM is two digits in all of them); conversely "2025-02-30 10:00" matches
the written 24-hour grammar textually but the code raises InvalidFormat
(February has no day 30).  Both directions of the claimed equivalence
fail on the code. -/
theorem parse_grammar_cex :
    parse_datetime_safely "2031-01-01" "18:5" = some ⟨2031, 1, 1, 18, 5⟩
    ∧ specGrammar ("2031-01-01" ++ " " ++ "18:5") = false
    ∧ parse_datetime_safely "2025-02-30" "10:00" = none
    ∧ specGrammar ("2025-02-30" ++ " " ++ "10:00") = true := by
  decide

/-- C4 (amended): parse_datetime_safely raises InvalidFormat exactly when
the concatenation of the two strings matches none of the three grammars
generalized to what the strptime patterns accept (one-or-two-digit month,
day, hour, and minute within range, a four-digit year of a valid calendar
date, any nonempty whitespace run as the separator, case-insensitive
meridiem), and on a match it returns the matched timestamp: the parser
equals the independent whole-string recognizer on every input pair. -/
theorem parse_eq_amended_grammar (date_str time_str : String) :
    parse_datetime_safely date_str time_str
      = amendedMatches (date_str ++ " " ++ time_str) := by
  unfold parse_datetime_safely amendedMatches
  exact parseAll_eq_tokParse _

/-! ### Poller-tick lemmas -/

/-- The scheduled-message sends of a tick are exactly the due entries, in
order. -/
theorem tick_delivered (now : DateTime) (s : List ScheduleEntry) :
    (send_scheduled_messages now s).delivered
      = (s.filter fun e => DateTime.leb e.time now).map
          (fun e => (TARGET_CHAT_ID, e.message)) := by
  induction s with
  | nil => rfl
  | cons a t ih =>
    cases h : DateTime.leb a.time now <;>
      simp [send_scheduled_messages, List.filter_cons, h, ih]

/-- The store written back by a tick is exactly the not-yet-due entries, in
order. -/
theorem tick_remaining (now : DateTime) (s : List ScheduleEntry) :
    (send_scheduled_messages now s).remaining
      = s.filter fun e => !DateTime.leb e.time now := by
  induction s with
  | nil => rfl
  | cons a t ih =>
    cases h : DateTime.leb a.time now <;>
      simp [send_scheduled_messages, List.filter_cons, h, ih]

/-- The admin confirmations of a tick are exactly the due entries, in
order. -/
theorem tick_confirms (now : DateTime) (s : List ScheduleEntry) :
    (send_scheduled_messages now s).confirms
      = (s.filter fun e => DateTime.leb e.time now).map
          (fun e => (ADMIN_CHAT_ID, e.time, e.message)) := by
  induction s with
  | nil => rfl
  | cons a t ih =>
    cases h : DateTime.leb a.time now <;>
      simp [send_scheduled_messages, List.filter_cons, h, ih]

/-- C1: one poller tick, with "now" captured once, partitions the loaded
list in order into the due entries (time <= now), which are delivered and
dropped, and the not-yet-due entries (time > now), which are written back
in original order as the whole new store; no entry is in both classes, and
a store holding a single future entry yields a tick that delivers nothing
and writes back that same single entry. -/
theorem poller_tick_partitions (now : DateTime) (s : List ScheduleEntry) :
    (send_scheduled_messages now s).delivered
        = (s.filter fun e => DateTime.leb e.time now).map
            (fun e => (TARGET_CHAT_ID, e.message))
    ∧ (send_scheduled_messages now s).remaining
        = (s.filter fun e => !DateTime.leb e.time now)
    ∧ (∀ e : ScheduleEntry, DateTime.leb e.time now = true →
        e ∉ (send_scheduled_messages now s).remaining)
    ∧ (∀ e : ScheduleEntry, DateTime.leb e.time now = false →
        send_scheduled_messages now [e] = ⟨[], [], [], [e]⟩) := by
  refine ⟨tick_delivered now s, tick_remaining now s, ?_, ?_⟩
  · intro e hdue hmem
    rw [tick_remaining] at hmem
    have := List.of_mem_filter hmem
    simp [hdue] at this
  · intro e hfut
    simp [send_scheduled_messages, hfut]

/-- Witness for C1 at a concrete input: a single not-yet-due entry is kept
verbatim and nothing is sent. -/
theorem poller_tick_partitions_witness :
    send_scheduled_messages ⟨2025, 1, 1, 10, 0⟩
        [⟨⟨2025, 1, 1, 10, 1⟩, TARGET_CHAT_ID, "hi"⟩]
      = ⟨[], [], [], [⟨⟨2025, 1, 1, 10, 1⟩, TARGET_CHAT_ID, "hi"⟩]⟩ :=
  (poller_tick_partitions ⟨2025, 1, 1, 10, 0⟩ []).2.2.2
    ⟨⟨2025, 1, 1, 10, 1⟩, TARGET_CHAT_ID, "hi"⟩ (by decide)

/-- C2: a store holding exactly one entry whose time is strictly in the
past yields a tick that sends that message to the recipient exactly once,
sends exactly one admin confirmation, and saves the empty list (the
follow-up auto-ack to the recipient is also sent exactly once). -/
theorem due_entry_delivered_exactly_once (now : DateTime) (e : ScheduleEntry)
    (hdue : DateTime.leb e.time now = true) (hpast : e.time ≠ now) :
    send_scheduled_messages now [e]
      = ⟨[(TARGET_CHAT_ID, e.message)], [TARGET_CHAT_ID],
         [(ADMIN_CHAT_ID, e.time, e.message)], []⟩ := by
  simp [send_scheduled_messages, hdue]

/-- Witness for C2 at a concrete input. -/
theorem due_entry_delivered_exactly_once_witness :
    send_scheduled_messages ⟨2025, 1, 1, 10, 0⟩
        [⟨⟨2025, 1, 1, 9, 59⟩, TARGET_CHAT_ID, "hi"⟩]
      = ⟨[(TARGET_CHAT_ID, "hi")], [TARGET_CHAT_ID],
         [(ADMIN_CHAT_ID, ⟨2025, 1, 1, 9, 59⟩, "hi")], []⟩ :=
  due_entry_delivered_exactly_once ⟨2025, 1, 1, 10, 0⟩
    ⟨⟨2025, 1, 1, 9, 59⟩, TARGET_CHAT_ID, "hi"⟩ (by decide) (by decide)

/-! ### Edit-session theorems -/

/-- A three-entry store used for the concrete edit-session scenarios. -/
def exStore : List ScheduleEntry :=
  [⟨⟨2030, 1, 1, 8, 0⟩, TARGET_CHAT_ID, "a"⟩,
   ⟨⟨2030, 1, 2, 8, 0⟩, TARGET_CHAT_ID, "b"⟩,
   ⟨⟨2030, 1, 3, 8, 0⟩, TARGET_CHAT_ID, "c"⟩]

/-- C3 counterexample: with an edit-time session open on the valid index 2,
the two-token input "2031-01-01 9999" (unparseable time token) does NOT
leave the session open: parse_datetime_safely raises, the except block
clears the session and reports the error.  The entry is indeed left
unchanged (nothing is saved), but the session is closed, so the claimed
follow-up edit cannot happen. -/
theorem edit_time_unparseable_clears_session_cex :
    handle_admin_edit_reply true (some ⟨.edit_time, 2⟩) exStore
        "2031-01-01 9999" ⟨2025, 1, 1, 0, 0⟩
      = ⟨true, none, none, some .couldNotApply⟩
    ∧ (handle_admin_edit_reply true (some ⟨.edit_time, 2⟩) exStore
        "2031-01-01 9999" ⟨2025, 1, 1, 0, 0⟩).sessionAfter
        ≠ some ⟨.edit_time, 2⟩ := by
  decide

/-- C3 (amended): with an edit-time session open on a valid index i, a
two-token input whose time is unparseable clears the session with an error
reply and writes nothing (the entry at i is unchanged); while the session
is open, a two-token input parsing to a strictly future time rewrites the
time of entry i, saves, and clears the session; and once the session slot
is empty the next plain text message is not consumed by the edit handler
(it falls through to normal conversation). -/
theorem edit_time_session_amended (i : Int) (items : List ScheduleEntry)
    (text : String) (now : DateTime)
    (h0 : 0 ≤ i) (h1 : i < (items.length : Int)) :
    (∀ a b, pySplit (pyStrip text) = [a, b] → parse_datetime_safely a b = none →
      handle_admin_edit_reply true (some ⟨.edit_time, i⟩) items text now
        = ⟨true, none, none, some .couldNotApply⟩)
    ∧ (∀ a b dt, pySplit (pyStrip text) = [a, b] →
        parse_datetime_safely a b = some dt → DateTime.leb dt now = false →
        handle_admin_edit_reply true (some ⟨.edit_time, i⟩) items text now
          = ⟨true, none,
             some (items.set i.toNat
               { items.getD i.toNat dfltEntry with time := dt }),
             some (.timeUpdated dt)⟩)
    ∧ (∀ text2 : String, handle_admin_edit_reply true none items text2 now
        = ⟨false, none, none, none⟩) := by
  have hidx : ¬ (i < 0 ∨ (items.length : Int) ≤ i) := by omega
  refine ⟨?_, ?_, ?_⟩
  · intro a b hsplit hparse
    simp [handle_admin_edit_reply, hidx, hsplit, hparse]
  · intro a b dt hsplit hparse hfut
    simp [handle_admin_edit_reply, hidx, hsplit, hparse, hfut]
  · intro text2
    simp [handle_admin_edit_reply]

/-- Witness for C3 (amended) at concrete inputs: the unparseable input
clears the session without a write; a valid future input commits to index
2 and clears the session; an empty session does not consume the message. -/
theorem edit_time_session_amended_witness :
    handle_admin_edit_reply true (some ⟨.edit_time, 2⟩) exStore
        "2031-01-01 9999" ⟨2025, 1, 1, 0, 0⟩
      = ⟨true, none, none, some .couldNotApply⟩
    ∧ handle_admin_edit_reply true (some ⟨.edit_time, 2⟩) exStore
        "2031-01-01 10:30" ⟨2025, 1, 1, 0, 0⟩
      = ⟨true, none,
         some [⟨⟨2030, 1, 1, 8, 0⟩, TARGET_CHAT_ID, "a"⟩,
               ⟨⟨2030, 1, 2, 8, 0⟩, TARGET_CHAT_ID, "b"⟩,
               ⟨⟨2031, 1, 1, 10, 30⟩, TARGET_CHAT_ID, "c"⟩],
         some (.timeUpdated ⟨2031, 1, 1, 10, 30⟩)⟩
    ∧ handle_admin_edit_reply true none exStore "hello" ⟨2025, 1, 1, 0, 0⟩
      = ⟨false, none, none, none⟩ := by
  refine ⟨?_, ?_, ?_⟩
  · exact (edit_time_session_amended 2 exStore "2031-01-01 9999" ⟨2025, 1, 1, 0, 0⟩
      (by decide) (by decide)).1 "2031-01-01" "9999" (by decide) (by decide)
  · exact (edit_time_session_amended 2 exStore "2031-01-01 10:30" ⟨2025, 1, 1, 0, 0⟩
      (by decide) (by decide)).2.1 "2031-01-01" "10:30" ⟨2031, 1, 1, 10, 30⟩
      (by decide) (by decide) (by decide)
  · exact (edit_time_session_amended 2 exStore "x" ⟨2025, 1, 1, 0, 0⟩
      (by decide) (by decide)).2.2 "hello"

/-- C6: in either edit mode, when the open session's index no longer
addresses a valid entry of the freshly loaded store, the handler reports
staleness, clears the session, and calls no save. -/
theorem stale_session_cleared (s : AdminState) (items : List ScheduleEntry)
    (text : String) (now : DateTime)
    (h : s.index < 0 ∨ (items.length : Int) ≤ s.index) :
    handle_admin_edit_reply true (some s) items text now
      = ⟨true, none, none, some .staleIndex⟩ := by
  simp [handle_admin_edit_reply, h]

/-- Witness for C6 at a concrete input (session on index 5 of the
three-entry store, in edit_msg mode). -/
theorem stale_session_cleared_witness :
    handle_admin_edit_reply true (some ⟨.edit_msg, 5⟩) exStore "x" ⟨2025, 1, 1, 0, 0⟩
      = ⟨true, none, none, some .staleIndex⟩ :=
  stale_session_cleared ⟨.edit_msg, 5⟩ exStore "x" ⟨2025, 1, 1, 0, 0⟩ (by decide)

/-! ### cmd_schedule theorems -/

/-- C5: the create-schedule command appends exactly one entry and reports
the normalized time when the parse succeeds with a strictly future time;
with fewer than three arguments, on a parse error, or on a non-future
time, it reports the corresponding error and never calls load/save. -/
theorem cmd_schedule_spec (args : List String) (now : DateTime)
    (store : List ScheduleEntry) :
    (args.length < 3 → cmd_schedule args now store = ⟨.usage, none⟩)
    ∧ (3 ≤ args.length →
        parse_datetime_safely (args.getD 0 "") (args.getD 1 "") = none →
        cmd_schedule args now store = ⟨.errorReply, none⟩)
    ∧ (∀ dt, 3 ≤ args.length →
        parse_datetime_safely (args.getD 0 "") (args.getD 1 "") = some dt →
        DateTime.leb dt now = true →
        cmd_schedule args now store = ⟨.pastTime, none⟩)
    ∧ (∀ dt, 3 ≤ args.length →
        parse_datetime_safely (args.getD 0 "") (args.getD 1 "") = some dt →
        DateTime.leb dt now = false →
        cmd_schedule args now store
          = ⟨.ok dt (String.intercalate " " (args.drop 2)),
             some (store ++
               [⟨dt, TARGET_CHAT_ID, String.intercalate " " (args.drop 2)⟩])⟩) := by
  refine ⟨?_, ?_, ?_, ?_⟩
  · intro h
    simp [cmd_schedule, h]
  · intro h hp
    have h3 : ¬ args.length < 3 := by omega
    simp only [cmd_schedule]
    rw [if_neg h3, hp]
  · intro dt h hp hpast
    have h3 : ¬ args.length < 3 := by omega
    simp only [cmd_schedule]
    rw [if_neg h3, hp]
    exact if_pos hpast
  · intro dt h hp hfut
    have h3 : ¬ args.length < 3 := by omega
    simp only [cmd_schedule]
    rw [if_neg h3, hp]
    exact if_neg (by simp [hfut])

/-- Witness for C5 at concrete inputs: a valid future command appends one
entry; an unparseable time is reported with no write. -/
theorem cmd_schedule_spec_witness :
    cmd_schedule ["2031-01-01", "10:30", "hi", "there"] ⟨2025, 1, 1, 0, 0⟩ []
      = ⟨.ok ⟨2031, 1, 1, 10, 30⟩ "hi there",
         some [⟨⟨2031, 1, 1, 10, 30⟩, TARGET_CHAT_ID, "hi there"⟩]⟩
    ∧ cmd_schedule ["2031-01-01", "9999", "hi"] ⟨2025, 1, 1, 0, 0⟩ exStore
      = ⟨.errorReply, none⟩ := by
  constructor
  · exact (cmd_schedule_spec ["2031-01-01", "10:30", "hi", "there"]
      ⟨2025, 1, 1, 0, 0⟩ []).2.2.2 ⟨2031, 1, 1, 10, 30⟩ (by decide) (by decide)
      (by decide)
  · exact (cmd_schedule_spec ["2031-01-01", "9999", "hi"]
      ⟨2025, 1, 1, 0, 0⟩ exStore).2.1 (by decide) (by decide)

/-! ### Callback-router theorems -/

/-- C7 counterexample: an admin button press whose action string
"foo:bar" is none of the recognized actions produces NO reply at all — the
source has no "unknown action" report; the handler answers the query and
falls through all the dispatch branches, mutating nothing. -/
theorem unknown_action_silent_cex :
    on_callback ADMIN_CHAT_ID "foo:bar" exStore (some ⟨.edit_time, 1⟩)
      = ⟨true, none, some ⟨.edit_time, 1⟩, none, false⟩
    ∧ (on_callback ADMIN_CHAT_ID "foo:bar" exStore (some ⟨.edit_time, 1⟩)).reply
        = none := by
  decide

/-- C7 (amended): an admin button press whose action string matches no
recognized prefix — and, when it matches a recognized "<action>:<arg>"
prefix, whose argument is not a valid integer — produces no reply message
and mutates neither the store nor the session (in the malformed-argument
case the handler aborts on the int() error with nothing mutated).  Note
that any string starting with "list" (even an unrecognized one such as
"listfoo") is instead treated as a list refresh by the source. -/
theorem unknown_action_amended (data : String) (items : List ScheduleEntry)
    (st : Option AdminState)
    (hlist : pyStartswith "list" data = false)
    (hmal : ∀ p, p ∈ (["view:", "edit_time:", "edit_msg:", "delete:"] : List String) →
      pyStartswith p data = true → pyInt (argOf data) = none) :
    (on_callback ADMIN_CHAT_ID data items st).reply = none
    ∧ (on_callback ADMIN_CHAT_ID data items st).sessionAfter = st
    ∧ (on_callback ADMIN_CHAT_ID data items st).saved = none := by
  unfold on_callback
  rw [if_pos rfl, if_neg (by simp [hlist])]
  by_cases hv : pyStartswith "view:" data
  · rw [if_pos hv, hmal "view:" (by simp) hv]
    exact ⟨rfl, rfl, rfl⟩
  · rw [if_neg hv]
    by_cases ht : pyStartswith "edit_time:" data
    · rw [if_pos ht, hmal "edit_time:" (by simp) ht]
      exact ⟨rfl, rfl, rfl⟩
    · rw [if_neg ht]
      by_cases hm : pyStartswith "edit_msg:" data
      · rw [if_pos hm, hmal "edit_msg:" (by simp) hm]
        exact ⟨rfl, rfl, rfl⟩
      · rw [if_neg hm]
        by_cases hd : pyStartswith "delete:" data
        · rw [if_pos hd, hmal "delete:" (by simp) hd]
          exact ⟨rfl, rfl, rfl⟩
        · rw [if_neg hd]
          exact ⟨rfl, rfl, rfl⟩

/-- Witness for C7 (amended) at concrete inputs: a plain unrecognized
string, and a recognized prefix with a malformed index. -/
theorem unknown_action_amended_witness :
    ((on_callback ADMIN_CHAT_ID "hello" exStore none).reply = none
      ∧ (on_callback ADMIN_CHAT_ID "hello" exStore none).sessionAfter = none
      ∧ (on_callback ADMIN_CHAT_ID "hello" exStore none).saved = none)
    ∧ ((on_callback ADMIN_CHAT_ID "delete:abc" exStore none).reply = none
      ∧ (on_callback ADMIN_CHAT_ID "delete:abc" exStore none).sessionAfter = none
      ∧ (on_callback ADMIN_CHAT_ID "delete:abc" exStore none).saved = none) :=
  ⟨unknown_action_amended "hello" exStore none (by decide) (by decide),
   unknown_action_amended "delete:abc" exStore none (by decide) (by decide)⟩

/-- C8: a button-press event from any chat other than the admin's returns
before answering: no reply is sent, the session slot is untouched, no
store write happens — the observable state after equals the state
before. -/
theorem non_admin_callback_noop (chat : Int) (data : String)
    (items : List ScheduleEntry) (st : Option AdminState)
    (h : chat ≠ ADMIN_CHAT_ID) :
    on_callback chat data items st = ⟨false, none, st, none, false⟩ := by
  simp [on_callback, h]

/-- Witness for C8 at a concrete input (the recipient's own chat id
pressing a delete button). -/
theorem non_admin_callback_noop_witness :
    on_callback TARGET_CHAT_ID "delete:0" exStore (some ⟨.edit_time, 1⟩)
      = ⟨false, none, some ⟨.edit_time, 1⟩, none, false⟩ :=
  non_admin_callback_noop TARGET_CHAT_ID "delete:0" exStore
    (some ⟨.edit_time, 1⟩) (by decide)

/-! ### List-preview theorem -/

/-- C9: every entry row of the list menu shows the preview of its message,
which is the first 38 characters plus an ellipsis when the message length
exceeds 40 and the whole message otherwise (so messages of length up to
and including 40 are untruncated). -/
theorem list_preview_truncation (page_items : List (Nat × ScheduleEntry))
    (i : Nat) (e : ScheduleEntry) (hmem : (i, e) ∈ page_items) :
    (ListButton.mk
        (toString i ++ ". " ++ strftime_list e.time ++ " — " ++ preview_of e.message)
        ("view:" ++ toString i)) ∈ schedule_list_markup page_items
    ∧ (e.message.length > 40 → preview_of e.message = e.message.take 38 ++ "…")
    ∧ (e.message.length ≤ 40 → preview_of e.message = e.message) := by
  refine ⟨?_, ?_, ?_⟩
  · exact List.mem_append_left _ (List.mem_map_of_mem _ hmem)
  · intro h
    simp [preview_of, h]
  · intro h
    have h2 : ¬ e.message.length > 40 := by omega
    simp [preview_of, h2]

/-- Witness for C9 at concrete inputs: a 41-character message is cut to 38
characters plus an ellipsis; a 40-character message is shown whole. -/
theorem list_preview_truncation_witness :
    preview_of "aaaaaaaaaaaaaaaaaaaaaaaaaaaaaaaaaaaaaaaab"
      = "aaaaaaaaaaaaaaaaaaaaaaaaaaaaaaaaaaaaaa" ++ "…"
    ∧ preview_of "bbbbbbbbbbbbbbbbbbbbbbbbbbbbbbbbbbbbbbbb"
      = "bbbbbbbbbbbbbbbbbbbbbbbbbbbbbbbbbbbbbbbb" := by
  constructor
  · have := (list_preview_truncation
      [(0, ⟨⟨2030, 1, 1, 8, 0⟩, TARGET_CHAT_ID,
        "aaaaaaaaaaaaaaaaaaaaaaaaaaaaaaaaaaaaaaaab"⟩)]
      0 ⟨⟨2030, 1, 1, 8, 0⟩, TARGET_CHAT_ID,
        "aaaaaaaaaaaaaaaaaaaaaaaaaaaaaaaaaaaaaaaab"⟩ (by decide)).2.1 (by decide)
    simpa using this
  · have := (list_preview_truncation
      [(0, ⟨⟨2030, 1, 1, 8, 0⟩, TARGET_CHAT_ID,
        "bbbbbbbbbbbbbbbbbbbbbbbbbbbbbbbbbbbbbbbb"⟩)]
      0 ⟨⟨2030, 1, 1, 8, 0⟩, TARGET_CHAT_ID,
        "bbbbbbbbbbbbbbbbbbbbbbbbbbbbbbbbbbbbbbbb"⟩ (by decide)).2.2 (by decide)
    simpa using this

/-! ### Memory-bound theorem -/

/-- C10: after update_memory the persisted list has at most 200 records,
the new record is its last element, and whenever the pre-existing memory
already had at least 200 records the kept list is exactly the most recent
200 records of the appended list (a suffix of it, of length 200, with
relative order preserved). -/
theorem update_memory_bound (memory : List MemoryRecord) (sender message : String) :
    (update_memory memory sender message).length ≤ 200
    ∧ (update_memory memory sender message).getLast? = some ⟨sender, message⟩
    ∧ (200 ≤ memory.length →
        (update_memory memory sender message).length = 200
        ∧ (update_memory memory sender message)
            <:+ (memory ++ [⟨sender, message⟩])) := by
  unfold update_memory
  by_cases h : 200 < (memory ++ [(⟨sender, message⟩ : MemoryRecord)]).length
  · rw [if_pos h]
    have hlen : (memory ++ [(⟨sender, message⟩ : MemoryRecord)]).length
        = memory.length + 1 := by simp
    have hk : (memory ++ [(⟨sender, message⟩ : MemoryRecord)]).length - 200
        ≤ memory.length := by omega
    refine ⟨?_, ?_, fun _ => ⟨?_, List.drop_suffix _ _⟩⟩
    · simp only [List.length_drop]
      omega
    · rw [List.drop_append_eq_append_drop]
      have h0 : (memory ++ [(⟨sender, message⟩ : MemoryRecord)]).length - 200
          - memory.length = 0 := by omega
      rw [h0]
      simp [List.getLast?_concat]
    · simp only [List.length_drop]
      omega
  · rw [if_neg h]
    simp only [List.length_append, List.length_singleton] at h ⊢
    exact ⟨by omega, List.getLast?_concat _, fun hge => absurd (by omega : 200 < memory.length + 1) h⟩

/-- Witness for C10 at a concrete input: appending to a memory of exactly
200 records keeps the length at 200 and the result is a suffix of the
appended list. -/
theorem update_memory_bound_witness :
    (update_memory (List.replicate 200 ⟨"Her", "x"⟩) "HiroBot" "y").length = 200
    ∧ (update_memory (List.replicate 200 ⟨"Her", "x"⟩) "HiroBot" "y")
        <:+ (List.replicate 200 ⟨"Her", "x"⟩ ++ [⟨"HiroBot", "y"⟩]) :=
  (update_memory_bound (List.replicate 200 ⟨"Her", "x"⟩) "HiroBot" "y").2.2
    (by simp)

end HiroBot

